import Mathlib

/-!
Verification of the EFT_xsec parameter-scan scripts
(`scan_mll_bins.py` and `scan_mll_bins_cxx.py`).

Shallow embedding conventions:
* Python text is modelled as `List Char`; a file is either a raw character
  list (for the regex substitution functions, which operate on the whole
  text) or a list of newline-free lines (for the line-oriented log parser).
* Python `float` values parsed from log tokens are abstracted by a type `α`
  together with a partial parsing function `pf : List Char → Option α`
  (Python `float(tok)` either returns a value or raises).  Every theorem
  about the parser is proved for an arbitrary such `pf`.
* Fallible Python functions (ones that can raise) return `Except`.
* The character classes `\s`, `[\d.eE+-]`, `\w`, `\d` of the `re` patterns
  are modelled over the ASCII characters appearing in MadGraph cards.
-/

/-- Python `\s` (ASCII whitespace: space, tab, newline, CR, VT, FF). -/
def isPySpace (c : Char) : Bool :=
  c = ' ' ∨ c = '\t' ∨ c = '\n' ∨ c = '\r' ∨ c = '\x0b' ∨ c = '\x0c'

/-- The character class `[\d.eE+-]` used by both run-card patterns for the
numeric field. -/
def isNumCh (c : Char) : Bool :=
  c.isDigit ∨ c = '.' ∨ c = 'e' ∨ c = 'E' ∨ c = '+' ∨ c = '-'

/-- Python `\w` (word character, ASCII): letter, digit or underscore. -/
def isWordCh (c : Char) : Bool :=
  c.isAlpha ∨ c.isDigit ∨ c = '_'

/-- Python `str.split()` with no argument: the maximal nonempty runs of
non-whitespace characters, in order. -/
def pySplit (l : List Char) : List (List Char) :=
  let step : Char → (List Char × List (List Char)) → (List Char × List (List Char)) :=
    fun c (cur, acc) =>
      if isPySpace c then
        match cur with
        | [] => ([], acc)
        | w => ([], w :: acc)
      else (c :: cur, acc)
  match l.foldr step ([], []) with
  | ([], acc) => acc
  | (w, acc) => w :: acc

/-- Python `pat in s` on strings: `pat` occurs as a contiguous substring. -/
def hasInfix (pat : List Char) : List Char → Bool
  | [] => pat.isPrefixOf []
  | c :: cs => pat.isPrefixOf (c :: cs) || hasInfix pat cs

/-- The marker substring `"Cross-section :"` scanned for in the log. -/
def crossSectionMarker : List Char := "Cross-section :".toList

/-- Error outcomes of `parse_cross_section`: the final
`RuntimeError("Could not find 'Cross-section :' line …")` and the
`RuntimeError("Could not parse cross section from line …")` raised from the
`try`/`except` around the token accesses. -/
inductive ParseErr where
  | notFound : ParseErr
  | badLine : ParseErr
deriving DecidableEq

namespace ScanMll

/-- `parse_cross_section` of `scan_mll_bins.py` (lines 122-153), over the
list of lines of the log file.  The loop scans lines in order; on the first
line containing the marker it evaluates `float(parts[2])`, `float(parts[4])`,
`parts[5]` (any `IndexError` or `ValueError` becomes `RuntimeError`), then
breaks; if no line contains the marker, `xsec` stays `None` and a
`RuntimeError` is raised after the loop. -/
def parse_cross_section (pf : List Char → Option α) :
    List (List Char) → Except ParseErr (α × α × List Char)
  | [] => .error .notFound
  | l :: rest =>
    if hasInfix crossSectionMarker l then
      match (pySplit l)[2]? with
      | none => .error .badLine
      | some t2 =>
        match pf t2 with
        | none => .error .badLine
        | some x =>
          match (pySplit l)[4]? with
          | none => .error .badLine
          | some t4 =>
            match pf t4 with
            | none => .error .badLine
            | some e =>
              match (pySplit l)[5]? with
              | none => .error .badLine
              | some u => .ok (x, e, u)
    else parse_cross_section pf rest

end ScanMll

namespace ScanMllCxx

/-- `parse_cross_section` of `scan_mll_bins_cxx.py` (lines 155-186); the
source text is identical to the one in `scan_mll_bins.py`. -/
def parse_cross_section (pf : List Char → Option α) :
    List (List Char) → Except ParseErr (α × α × List Char)
  | [] => .error .notFound
  | l :: rest =>
    if hasInfix crossSectionMarker l then
      match (pySplit l)[2]? with
      | none => .error .badLine
      | some t2 =>
        match pf t2 with
        | none => .error .badLine
        | some x =>
          match (pySplit l)[4]? with
          | none => .error .badLine
          | some t4 =>
            match pf t4 with
            | none => .error .badLine
            | some e =>
              match (pySplit l)[5]? with
              | none => .error .badLine
              | some u => .ok (x, e, u)
    else parse_cross_section pf rest

end ScanMllCxx

/-- The condition under which the `try` block of `parse_cross_section`
raises on the first marker line: fewer than 6 whitespace tokens, or token 2
or token 4 not parseable as a float. -/
def badMarkerLine (pf : List Char → Option α) (l : List Char) : Bool :=
  decide ((pySplit l).length < 6) ||
    (match (pySplit l)[2]? with
     | none => true
     | some t => (pf t).isNone) ||
    (match (pySplit l)[4]? with
     | none => true
     | some t => (pf t).isNone)

/-! ### The `re.subn` engine for the two card patterns

Both card editors call `re.subn(pattern, repl, text, flags=re.MULTILINE)`
with a pattern anchored at `^`.  With `re.MULTILINE`, `^` matches at the
start of the string and right after every `'\n'`; the engine scans the text
left to right, attempting a match at each position (succeeding only at
line-start positions because of the anchor), replaces each non-overlapping
match and resumes scanning right after it.  For the three concrete patterns
used by the scripts, greedy matching of `\s*` / `[\d.eE+-]+` / `\d+` is
deterministic (adjacent subpatterns draw from disjoint character classes,
so giving back characters can never create a match), hence each match
attempt is a single left-to-right scan with no backtracking.  A matcher is
a function from a suffix of the text to `none` (no match at this position)
or `some (replacement, remainder)` where `remainder` is the text right
after the matched span and `replacement` is the already-assembled
replacement text (the `repl` template with group references substituted). -/

/-- The scanning loop of `re.subn`, with explicit fuel (one unit per
consumed character); `bol` records whether the current position is at the
beginning of a line, i.e. whether the `^` anchor holds there. -/
def reSubnF (m : List Char → Option (List Char × List Char)) :
    Nat → Bool → List Char → List Char × Nat
  | 0, _, _ => ([], 0)
  | _ + 1, _, [] => ([], 0)
  | f + 1, bol, c :: cs =>
    match (if bol then m (c :: cs) else none) with
    | some (r, rem) =>
      let p := reSubnF m f false rem
      (r ++ p.1, p.2 + 1)
    | none =>
      let p := reSubnF m f (c = '\n') cs
      (c :: p.1, p.2)

/-- `re.subn(pattern, repl, text, flags=re.MULTILINE)`: the rewritten text
and the number of replacements made. -/
def reSubn (m : List Char → Option (List Char × List Char)) (text : List Char) :
    List Char × Nat :=
  reSubnF m text.length true text

/-- The scanner in mid-scan state: remaining text `s` with the `^`-anchor
flag `bol`, at its canonical fuel. -/
def scanRe (m : List Char → Option (List Char × List Char)) (bol : Bool)
    (s : List Char) : List Char × Nat :=
  reSubnF m s.length bol s

/-- Word-boundary test `\b` right after a name whose last character is a
word character: satisfied at end of text or before a non-word character. -/
def boundaryOk : List Char → Bool
  | [] => true
  | c :: _ => !(isWordCh c)

/-- Stage of the run-card pattern after the literal `=`: `\s*NAME\b`,
given the capture-group prefix seen so far.  `ws2` is the whitespace
matched before the `=`. -/
def runAfterEq (name fmt ws2 s4 : List Char) : Option (List Char × List Char) :=
  let ws3 := s4.takeWhile isPySpace
  let s5 := s4.dropWhile isPySpace
  if name.isPrefixOf s5 then
    let tail := s5.drop name.length
    if boundaryOk tail then
      some (' ' :: fmt ++ ws2 ++ '=' :: ws3 ++ name, tail)
    else none
  else none

/-- Stage of the run-card pattern after the numeric run: `\s*=` followed by
`runAfterEq`, on the text `s2` right after the numeric run. -/
def runAfterNum (name fmt s2 : List Char) : Option (List Char × List Char) :=
  let ws2 := s2.takeWhile isPySpace
  match s2.dropWhile isPySpace with
  | [] => none
  | c :: s4 => if c = '=' then runAfterEq name fmt ws2 s4 else none

/-- One match attempt for the run-card pattern
`^\s*[-+]?[\d.eE+-]+(\s*=\s*NAME\b)` at the current position, `NAME` being
`mmll` or `mmllmax`.  On success the replacement ` FMT\1` is assembled,
`FMT` standing for the text of `f"{value:.6g}"`.  The optional sign
`[-+]?` is absorbed into the numeric run because `+` and `-` belong to
`[\d.eE+-]`; greedy matching of each piece is deterministic because the
classes at every boundary are disjoint. -/
def tryMatchRun (name fmt s : List Char) : Option (List Char × List Char) :=
  let s1 := s.dropWhile isPySpace
  if (s1.takeWhile isNumCh).isEmpty then none
  else runAfterNum name fmt (s1.dropWhile isNumCh)

/-- Stage of the param-card pattern after the literal `#`: `\s*LABEL\b`.
`g1` is the text of capture group 1 (`\s*\d+\s+`), `wsB` the whitespace of
`\s+` before the `#`. -/
def paramAfterHash (label fmt g1 wsB s6 : List Char) : Option (List Char × List Char) :=
  let wsC := s6.takeWhile isPySpace
  let s7 := s6.dropWhile isPySpace
  if label.isPrefixOf s7 then
    let tail := s7.drop label.length
    if boundaryOk tail then
      some (g1 ++ fmt ++ wsB ++ '#' :: wsC ++ label, tail)
    else none
  else none

/-- Stage of the param-card pattern after the numeric run: `\s+#` followed
by `paramAfterHash`, on the text `s4` right after the numeric run. -/
def paramAfterNum (label fmt g1 s4 : List Char) : Option (List Char × List Char) :=
  let wsB := s4.takeWhile isPySpace
  match s4.dropWhile isPySpace with
  | [] => none
  | c :: s6 =>
    if c = '#' ∧ ¬ wsB.isEmpty then paramAfterHash label fmt g1 wsB s6
    else none

/-- Stage of the param-card pattern after the integer: `\s+` then the
numeric run `[-+]?[\d.eE+-]+` then `paramAfterNum`; `pre` is `\s*\d+`. -/
def paramAfterInt (label fmt pre s2 : List Char) : Option (List Char × List Char) :=
  let wsA := s2.takeWhile isPySpace
  if wsA.isEmpty then none
  else
    let s3 := s2.dropWhile isPySpace
    if (s3.takeWhile isNumCh).isEmpty then none
    else paramAfterNum label fmt (pre ++ wsA) (s3.dropWhile isNumCh)

/-- One match attempt for the param-card pattern
`^(\s*\d+\s+)[-+]?[\d.eE+-]+(\s+#\s*LABEL\b)`; the replacement
`m.group(1) + FMT + m.group(2)` is assembled on success, `FMT` standing for
the text of `f"{value:.6e}"`. -/
def tryMatchParam (label fmt s : List Char) : Option (List Char × List Char) :=
  let ws1 := s.takeWhile isPySpace
  let s1 := s.dropWhile isPySpace
  if (s1.takeWhile Char.isDigit).isEmpty then none
  else
    paramAfterInt label fmt (ws1 ++ s1.takeWhile Char.isDigit)
      (s1.dropWhile Char.isDigit)

/-- `PARAM_MIN = "mmll"`. -/
def mmllName : List Char := "mmll".toList

/-- `PARAM_MAX = "mmllmax"`. -/
def mmllmaxName : List Char := "mmllmax".toList

namespace ScanMll

/-- `update_run_card` of `scan_mll_bins.py` (lines 85-105) as a
text-to-text function.  `fmtMin`/`fmtMax` stand for the rendered
`f"{mmin:.6g}"`/`f"{mmax:.6g}"` of the new bounds.  The two `re.subn`
calls both run before the zero-count check; on `nmin == 0 or nmax == 0` a
`RuntimeError` is raised and `run_card.dat` is not written, otherwise the
rewritten text is written. -/
def update_run_card (fmtMin fmtMax : List Char) (text : List Char) :
    Except Unit (List Char) :=
  let r1 := reSubn (tryMatchRun mmllName fmtMin) text
  let r2 := reSubn (tryMatchRun mmllmaxName fmtMax) r1.1
  if r1.2 = 0 ∨ r2.2 = 0 then .error () else .ok r2.1

end ScanMll

namespace ScanMllCxx

/-- `update_run_card` of `scan_mll_bins_cxx.py` (lines 91-111); the source
text is identical to the one in `scan_mll_bins.py`. -/
def update_run_card (fmtMin fmtMax : List Char) (text : List Char) :
    Except Unit (List Char) :=
  let r1 := reSubn (tryMatchRun mmllName fmtMin) text
  let r2 := reSubn (tryMatchRun mmllmaxName fmtMax) r1.1
  if r1.2 = 0 ∨ r2.2 = 0 then .error () else .ok r2.1

/-- `update_param_card` of `scan_mll_bins_cxx.py` (lines 114-138): a single
`re.subn` with the `# LABEL` pattern; on `n == 0` a `RuntimeError` is
raised and `param_card.dat` is not written. -/
def update_param_card (label fmt : List Char) (text : List Char) :
    Except Unit (List Char) :=
  let r := reSubn (tryMatchParam label fmt) text
  if r.2 = 0 then .error () else .ok r.1

end ScanMllCxx

/-- Rebuild a text from newline-free lines (`"a" :: "b" :: []` becomes
`"a\nb"`; a trailing empty line encodes a trailing newline). -/
def joinLines : List (List Char) → List Char
  | [] => []
  | [l] => l
  | l :: ls => l ++ '\n' :: joinLines ls

/-- Split a text at every `'\n'` (inverse of `joinLines` on newline-free
lines). -/
def splitLines (s : List Char) : List (List Char) :=
  s.foldr
    (fun c acc =>
      match acc with
      | [] => [[c]]
      | a :: as => if c = '\n' then [] :: a :: as else (c :: a) :: as)
    [[]]

/-- The effect of one `re.subn` pass on a single line: the replacement
followed by the unmatched tail if the matcher fires at the line start,
the line unchanged otherwise. -/
def procLine (m : List Char → Option (List Char × List Char)) (l : List Char) : List Char :=
  match m l with
  | some (r, rem) => r ++ rem
  | none => l

/-- Scan-safety of the `runAfterNum` stage on the text right after the
numeric run: the stage neither consumes the terminating newline nor looks
past it.  It fails if the rest of the line is pure whitespace (`\s*` of the
group would swallow the newline) or ends right after the `=` (the second
`\s*` would). -/
def runNumSafe (s2 : List Char) : Bool :=
  match s2.dropWhile isPySpace with
  | [] => false
  | c :: s4 => if c = '=' then !(s4.dropWhile isPySpace).isEmpty else true

/-- A line is *scan-safe* for the run-card pattern when a match attempt at
its start can neither consume the newline ending the line nor look past
it: the line is not whitespace-only, and if it starts with a numeric field
the stages after it stay within the line. -/
def lineSafeRun (l : List Char) : Bool :=
  let s1 := l.dropWhile isPySpace
  if s1.isEmpty then false
  else if (s1.takeWhile isNumCh).isEmpty then true
  else runNumSafe (s1.dropWhile isNumCh)

/-- Scan-safety of the `paramAfterNum` stage. -/
def paramNumSafe (s4 : List Char) : Bool :=
  if s4.isEmpty then false
  else if (s4.takeWhile isPySpace).isEmpty then true
  else
    match s4.dropWhile isPySpace with
    | [] => false
    | c :: s6 => if c = '#' then !(s6.dropWhile isPySpace).isEmpty else true

/-- Scan-safety of the `paramAfterInt` stage. -/
def paramIntSafe (s2 : List Char) : Bool :=
  if s2.isEmpty then false
  else if (s2.takeWhile isPySpace).isEmpty then true
  else
    let s3 := s2.dropWhile isPySpace
    if s3.isEmpty then false
    else if (s3.takeWhile isNumCh).isEmpty then true
    else paramNumSafe (s3.dropWhile isNumCh)

/-- A line is *scan-safe* for the param-card pattern when a match attempt
at its start stays within the line. -/
def lineSafeParam (l : List Char) : Bool :=
  let s1 := l.dropWhile isPySpace
  if s1.isEmpty then false
  else if (s1.takeWhile Char.isDigit).isEmpty then true
  else paramIntSafe (s1.dropWhile Char.isDigit)

/-! ### Scan configuration, formatting and the drivers -/

/-- `True` result of an `Except` (no exception raised). -/
def exceptOk : Except Unit (List Char) → Bool
  | .ok _ => true
  | .error _ => false

/-- Value of an `Except` result, `[]` in the error case. -/
def exceptVal : Except Unit (List Char) → List Char
  | .ok t => t
  | .error _ => []

/-- The 43 dilepton mass bins of both scripts (lines 21-65 / 28-72).  The
Python float literals `15.0, …, 3000.0` are all integral and exactly
representable, so the bins are embedded as the corresponding rationals. -/
def MASS_BINS : List (ℚ × ℚ) :=
  [(15, 20), (20, 25), (25, 30), (30, 35), (35, 40), (40, 45), (45, 50),
   (50, 55), (55, 60), (60, 64), (64, 68), (68, 72), (72, 76), (76, 81),
   (81, 86), (86, 91), (91, 96), (96, 101), (101, 106), (106, 110),
   (110, 115), (115, 120), (120, 126), (126, 133), (133, 141), (141, 150),
   (150, 160), (160, 171), (171, 185), (185, 200), (200, 220), (220, 243),
   (243, 273), (273, 320), (320, 380), (380, 440), (440, 510), (510, 600),
   (600, 700), (700, 830), (830, 1000), (1000, 1500), (1500, 3000)]

/-- `CXX_VALUES` of `scan_mll_bins_cxx.py` (line 79). -/
def CXX_VALUES : List ℤ :=
  [-100, -70, -35, -20, -10, -5, -1, 1, 5, 10, 20, 35, 70, 100]

/-- Python `int()` on a float/rational: truncation toward zero. -/
def pyInt (q : ℚ) : ℤ := Int.tdiv q.num q.den

/-- Python `str()` of an integer. -/
def intStr (n : ℤ) : List Char :=
  (if n < 0 then ['-'] else []) ++ (Nat.repr n.natAbs).toList

/-- `f"{x:.6g}"` for the values this scan feeds it: every `MASS_BINS`
bound is a nonnegative integral float below `10^6`, and `%.6g` prints such
a float as its plain decimal integer (no decimal point, no exponent). -/
def fmtG6 (q : ℚ) : List Char := (Nat.repr q.num.toNat).toList

/-- `f"{x:.6e}"` for an integer of at most seven significant digits (every
`CXX_VALUES` entry has at most three): sign, first digit, point, remaining
digits zero-padded to six, and a two-digit exponent. -/
def fmtE6 (n : ℤ) : List Char :=
  let ds := (Nat.repr n.natAbs).toList
  let mant :=
    match ds with
    | [] => "0.000000".toList
    | d :: rest => d :: '.' :: (rest ++ List.replicate (6 - rest.length) '0')
  let ex := ds.length - 1
  let exDigits :=
    if ex < 10 then '0' :: (Nat.repr ex).toList else (Nat.repr ex).toList
  (if n < 0 then ['-'] else []) ++ mant ++ 'e' :: '+' :: exDigits

/-- `f"{q:W.3f}"` for a rational with at most three decimals (every value
formatted by the scripts — bin bounds and integer cxx values — is exact at
three decimals, so no float rounding occurs): sign, integer digits, point,
three fraction digits, left-padded with spaces to width `W`. -/
def fmtFixed3 (width : Nat) (q : ℚ) : List Char :=
  let m := (q.num.natAbs * 1000) / q.den
  let ip := m / 1000
  let fp := m % 1000
  let fpDs := (Nat.repr fp).toList
  let core := (if q < 0 then ['-'] else []) ++ (Nat.repr ip).toList ++
    '.' :: (List.replicate (3 - fpDs.length) '0' ++ fpDs)
  List.replicate (width - core.length) ' ' ++ core

/-- A subprocess invocation as data: the argument list, the file that
`stdout` is redirected to, and whether `stderr` is merged into `stdout`
(`stderr=subprocess.STDOUT`). -/
structure ProcCall where
  argv : List (List Char)
  outFile : List Char
  errToOut : Bool
deriving DecidableEq

/-- The environment-provided outcome of one `generate_events` invocation:
its exit status and the lines of the log file it leaves behind. -/
structure RunOutcome where
  exitCode : Nat
  logLines : List (List Char)

/-- The externally observable steps of one scan iteration, in the order
the driver performs them. -/
inductive ScanAct where
  | updRunCard : ℚ × ℚ → ScanAct
  | updParamCard : ℤ → ScanAct
  | runGen : List Char → ScanAct
  | parseLog : List Char → ScanAct
  | appendRow : ScanAct
deriving DecidableEq

namespace ScanMll

/-- `GENERATE_EVENTS` as effective in `scan_mll_bins.py`: the assignment at
line 11 is overwritten at line 80 by the relative path
`Path("bin") / "generate_events"`. -/
def GENERATE_EVENTS : List Char := "bin/generate_events".toList

/-- `LOG_DIR = BASE_DIR / "logs"` (line 14, never reassigned);  `base` is
the rendered absolute `BASE_DIR`. -/
def LOG_DIR (base : List Char) : List Char := base ++ "/logs".toList

/-- `LOG_DIR / f"{run_name}.log"`. -/
def logPath (base rn : List Char) : List Char :=
  LOG_DIR base ++ '/' :: rn ++ ".log".toList

/-- The subprocess call built by `run_madgraph` (lines 108-117):
`[str(GENERATE_EVENTS), run_name, "-f"]`, with stdout redirected to the
per-run log and stderr merged into stdout. -/
def run_madgraph_call (base rn : List Char) : ProcCall :=
  ⟨[GENERATE_EVENTS, rn, "-f".toList], logPath base rn, true⟩

/-- The result of `run_madgraph`: `subprocess.run(..., check=True)` raises
`CalledProcessError` on a non-zero exit status, so the function returns the
log path exactly when the exit status is zero. -/
def run_madgraph_result (exitCode : Nat) (base rn : List Char) :
    Except Unit (List Char) :=
  if exitCode = 0 then .ok (logPath base rn) else .error ()

/-- `run_name = f"mll_{int(mmin)}_{int(mmax)}"` (line 168). -/
def runName (b : ℚ × ℚ) : List Char :=
  "mll_".toList ++ intStr (pyInt b.1) ++ '_' :: intStr (pyInt b.2)

/-- The header written once by `main` before the loop (line 159). -/
def headerLine : List Char :=
  "# mll_min[GeV]  mll_max[GeV]    xsec    err    unit\n".toList

/-- One appended output row (line 179):
`f"{mmin:10.3f} {mmax:10.3f} {xsec:12.6e} {err:12.6e} {unit}\n"`;
`renderE` stands for the `{x:12.6e}` rendering of a parsed float. -/
def rowLine (renderE : α → List Char) (b : ℚ × ℚ) (x e : α) (unit : List Char) :
    List Char :=
  fmtFixed3 10 b.1 ++ ' ' :: fmtFixed3 10 b.2 ++ ' ' :: renderE x ++
    ' ' :: renderE e ++ ' ' :: unit ++ ['\n']

/-- The scan loop of `main` (lines 161-179) over the remaining bins,
accumulating the output-file contents and the trace of performed steps.
Any raised exception (card update failure, non-zero exit, parse failure)
propagates and aborts the whole loop. -/
def scanGo (pf : List Char → Option α) (renderE : α → List Char)
    (oracle : ℚ × ℚ → RunOutcome) (template : List Char) :
    List (ℚ × ℚ) → List Char × List ScanAct → List Char × List ScanAct
  | [], st => st
  | b :: rest, (file, tr) =>
    let tr1 := tr ++ [ScanAct.updRunCard b]
    match update_run_card (fmtG6 b.1) (fmtG6 b.2) template with
    | .error _ => (file, tr1)
    | .ok _ =>
      let o := oracle b
      let tr2 := tr1 ++ [ScanAct.runGen (runName b)]
      if o.exitCode = 0 then
        let tr3 := tr2 ++ [ScanAct.parseLog (runName b)]
        match parse_cross_section pf o.logLines with
        | .error _ => (file, tr3)
        | .ok (x, e, u) =>
          scanGo pf renderE oracle template rest
            (file ++ rowLine renderE b x e u, tr3 ++ [ScanAct.appendRow])
      else (file, tr2)

/-- `main` of `scan_mll_bins.py`: header first, then the loop over
`MASS_BINS`. -/
def scanMain (pf : List Char → Option α) (renderE : α → List Char)
    (oracle : ℚ × ℚ → RunOutcome) (template : List Char) :
    List Char × List ScanAct :=
  scanGo pf renderE oracle template MASS_BINS (headerLine, [])

/-- All three steps of one iteration succeed for bin `b`. -/
def runOk (pf : List Char → Option α) (oracle : ℚ × ℚ → RunOutcome)
    (template : List Char) (b : ℚ × ℚ) : Bool :=
  exceptOk (update_run_card (fmtG6 b.1) (fmtG6 b.2) template) &&
    (oracle b).exitCode = 0 &&
    (match parse_cross_section pf (oracle b).logLines with
     | .ok _ => true
     | .error _ => false)

/-- The row a completed run appends. -/
def rowOf (pf : List Char → Option α) (renderE : α → List Char)
    (oracle : ℚ × ℚ → RunOutcome) (b : ℚ × ℚ) : List Char :=
  match parse_cross_section pf (oracle b).logLines with
  | .ok (x, e, u) => rowLine renderE b x e u
  | .error _ => []

end ScanMll

namespace ScanMllCxx

/-- `GENERATE_EVENTS = BASE_DIR / "bin" / "generate_events"` (line 9, never
reassigned in the cxx script); `base` is the rendered absolute `BASE_DIR`. -/
def GENERATE_EVENTS (base : List Char) : List Char :=
  base ++ "/bin/generate_events".toList

/-- `LOG_DIR = BASE_DIR / "logs"` (line 21). -/
def LOG_DIR (base : List Char) : List Char := base ++ "/logs".toList

/-- `LOG_DIR / f"{run_name}.log"`. -/
def logPath (base rn : List Char) : List Char :=
  LOG_DIR base ++ '/' :: rn ++ ".log".toList

/-- The subprocess call built by `run_madgraph` (lines 141-150). -/
def run_madgraph_call (base rn : List Char) : ProcCall :=
  ⟨[GENERATE_EVENTS base, rn, "-f".toList], logPath base rn, true⟩

/-- The result of `run_madgraph` of the cxx script. -/
def run_madgraph_result (exitCode : Nat) (base rn : List Char) :
    Except Unit (List Char) :=
  if exitCode = 0 then .ok (logPath base rn) else .error ()

/-- `cxx_tag = str(cxx).replace(".", "p").replace("-", "m")` (line 205). -/
def cxxTag (c : ℤ) : List Char :=
  ((intStr c).map fun ch => if ch = '.' then 'p' else ch).map
    fun ch => if ch = '-' then 'm' else ch

/-- `run_name = f"mll_{int(mmin)}_{int(mmax)}_cxx_{cxx_tag}"` (line 206). -/
def runName (b : ℚ × ℚ) (c : ℤ) : List Char :=
  "mll_".toList ++ intStr (pyInt b.1) ++ '_' :: intStr (pyInt b.2) ++
    "_cxx_".toList ++ cxxTag c

/-- The header written once by the cxx `main` (line 192). -/
def headerLine : List Char :=
  "# mll_min[GeV]  mll_max[GeV]   cxx    xsec    err    unit\n".toList

/-- One appended output row (lines 217-220):
`f"{mmin:10.3f} {mmax:10.3f} {cxx:8.3f} {xsec:12.6e} {err:12.6e} {unit}\n"`. -/
def rowLine (renderE : α → List Char) (b : ℚ × ℚ) (c : ℤ) (x e : α)
    (unit : List Char) : List Char :=
  fmtFixed3 10 b.1 ++ ' ' :: fmtFixed3 10 b.2 ++ ' ' :: fmtFixed3 8 (c : ℚ) ++
    ' ' :: renderE x ++ ' ' :: renderE e ++ ' ' :: unit ++ ['\n']

/-- The nested loops of the cxx `main` (lines 194-220) flattened into the
list of `(bin, cxx)` pairs they traverse: bins outer, cxx values inner. -/
def scanPairs : List ((ℚ × ℚ) × ℤ) :=
  MASS_BINS.flatMap fun b => CXX_VALUES.map fun c => (b, c)

/-- The body of the nested scan loops, accumulating output-file contents
and the trace of performed steps; an exception anywhere aborts the whole
nested loop. -/
def scanGo (pf : List Char → Option α) (renderE : α → List Char)
    (oracle : ℚ × ℚ → ℤ → RunOutcome) (template ptemplate label : List Char) :
    List ((ℚ × ℚ) × ℤ) → List Char × List ScanAct → List Char × List ScanAct
  | [], st => st
  | (b, c) :: rest, (file, tr) =>
    let tr1 := tr ++ [ScanAct.updRunCard b]
    match update_run_card (fmtG6 b.1) (fmtG6 b.2) template with
    | .error _ => (file, tr1)
    | .ok _ =>
      let tr2 := tr1 ++ [ScanAct.updParamCard c]
      match update_param_card label (fmtE6 c) ptemplate with
      | .error _ => (file, tr2)
      | .ok _ =>
        let o := oracle b c
        let tr3 := tr2 ++ [ScanAct.runGen (runName b c)]
        if o.exitCode = 0 then
          let tr4 := tr3 ++ [ScanAct.parseLog (runName b c)]
          match parse_cross_section pf o.logLines with
          | .error _ => (file, tr4)
          | .ok (x, e, u) =>
            scanGo pf renderE oracle template ptemplate label rest
              (file ++ rowLine renderE b c x e u, tr4 ++ [ScanAct.appendRow])
        else (file, tr3)

/-- `main` of `scan_mll_bins_cxx.py`: header first, then the nested loops
over `MASS_BINS × CXX_VALUES`. -/
def scanMain (pf : List Char → Option α) (renderE : α → List Char)
    (oracle : ℚ × ℚ → ℤ → RunOutcome) (template ptemplate label : List Char) :
    List Char × List ScanAct :=
  scanGo pf renderE oracle template ptemplate label scanPairs (headerLine, [])

/-- All four steps of one iteration succeed for the pair `(b, c)`. -/
def runOk (pf : List Char → Option α) (oracle : ℚ × ℚ → ℤ → RunOutcome)
    (template ptemplate label : List Char) (p : (ℚ × ℚ) × ℤ) : Bool :=
  exceptOk (update_run_card (fmtG6 p.1.1) (fmtG6 p.1.2) template) &&
    exceptOk (update_param_card label (fmtE6 p.2) ptemplate) &&
    (oracle p.1 p.2).exitCode = 0 &&
    (match parse_cross_section pf (oracle p.1 p.2).logLines with
     | .ok _ => true
     | .error _ => false)

/-- The row a completed run appends. -/
def rowOf (pf : List Char → Option α) (renderE : α → List Char)
    (oracle : ℚ × ℚ → ℤ → RunOutcome) (p : (ℚ × ℚ) × ℤ) : List Char :=
  match parse_cross_section pf (oracle p.1 p.2).logLines with
  | .ok (x, e, u) => rowLine renderE p.1 p.2 x e u
  | .error _ => []

end ScanMllCxx

/-- The side effects a module-level statement of the cxx script could
perform, distinguished by kind. -/
inductive InitEffect where
  | mkdirLogs : InitEffect
  | readCardFile : InitEffect
  | writeCardFile : InitEffect
  | spawnSubprocess : InitEffect
  | writeOutputFile : InitEffect
deriving DecidableEq

namespace ScanMllCxx

/-- The import-time top level of `scan_mll_bins_cxx.py` up to and including
the argv check (lines 1-86), as the list of side effects performed followed
by the outcome.  The only side effect before the check is
`LOG_DIR.mkdir(exist_ok=True)` (line 22); the check `len(sys.argv) < 2`
prints a usage line and calls `sys.exit(1)`, otherwise
`CXX_LABEL = sys.argv[1]` and initialization completes. -/
def module_init (argv : List (List Char)) : List InitEffect × Except Nat (List Char) :=
  ([InitEffect.mkdirLogs],
   if argv.length < 2 then .error 1 else .ok (argv.getD 1 []))

end ScanMllCxx

/-- Split a character list at every underscore (helper for inverting the
run-name encoding). -/
def splitOnUnderscore (s : List Char) : List (List Char) :=
  s.foldr
    (fun c acc =>
      match acc with
      | [] => [[c]]
      | a :: as => if c = '_' then [] :: a :: as else (c :: a) :: as)
    [[]]

/-- Decimal value of a digit string. -/
def natOfDigits (s : List Char) : Nat :=
  s.foldl (fun a c => a * 10 + (c.toNat - 48)) 0

/-- Recover `(int(mmin), int(mmax))` from a plain-script run name. -/
def decodeRunName (s : List Char) : ℤ × ℤ :=
  match splitOnUnderscore s with
  | [_, a, b] => ((natOfDigits a : ℤ), (natOfDigits b : ℤ))
  | _ => (0, 0)

/-- Recover `(int(mmin), int(mmax), cxx_tag)` from a cxx-script run name. -/
def decodeRunNameCxx (s : List Char) : ℤ × ℤ × List Char :=
  match splitOnUnderscore s with
  | [_, a, b, _, t] => ((natOfDigits a : ℤ), (natOfDigits b : ℤ), t)
  | _ => (0, 0, [])

/-! ### Helper lemmas on lists -/

theorem length_dropWhile_le (p : Char → Bool) (l : List Char) :
    (l.dropWhile p).length ≤ l.length := by
  induction l with
  | nil => simp [List.dropWhile]
  | cons c cs ih =>
    by_cases h : p c = true
    · simp only [List.dropWhile, h]
      exact Nat.le_succ_of_le ih
    · simp [List.dropWhile, h]

theorem runAfterEq_sublist (name fmt ws2 s4 r rem : List Char)
    (h : runAfterEq name fmt ws2 s4 = some (r, rem)) : List.Sublist rem s4 := by
  simp only [runAfterEq] at h
  split at h
  · split at h
    · cases h
      exact (List.drop_sublist _ _).trans (List.dropWhile_sublist _)
    · cases h
  · cases h

theorem runAfterNum_spec (name fmt s2 r rem : List Char)
    (h : runAfterNum name fmt s2 = some (r, rem)) :
    rem.length < s2.length ∧ List.Sublist rem s2 := by
  simp only [runAfterNum] at h
  split at h
  · cases h
  · rename_i c s4 heq
    split at h
    · have hsub : List.Sublist rem s4 := runAfterEq_sublist _ _ _ _ _ _ h
      have hcons : List.Sublist (c :: s4) s2 := by
        rw [← heq]; exact List.dropWhile_sublist _
      have hs4 : List.Sublist rem s2 :=
        hsub.trans (((List.Sublist.refl s4).cons c).trans hcons)
      refine ⟨?_, hs4⟩
      have l1 : rem.length ≤ s4.length := hsub.length_le
      have l2 : s4.length + 1 ≤ s2.length := by
        have := hcons.length_le
        simpa using this
      omega
    · cases h

theorem tryMatchRun_lt (name fmt : List Char) :
    ∀ s r rem, tryMatchRun name fmt s = some (r, rem) → rem.length < s.length := by
  intro s r rem h
  simp only [tryMatchRun] at h
  split at h
  · cases h
  · have hspec := runAfterNum_spec _ _ _ _ _ h
    have l1 : ((s.dropWhile isPySpace).dropWhile isNumCh).length ≤
        (s.dropWhile isPySpace).length := (List.dropWhile_sublist _).length_le
    have l2 : (s.dropWhile isPySpace).length ≤ s.length :=
      (List.dropWhile_sublist _).length_le
    omega

theorem tryMatchRun_sub (name fmt : List Char) :
    ∀ s r rem, tryMatchRun name fmt s = some (r, rem) → ∀ x ∈ rem, x ∈ s := by
  intro s r rem h
  simp only [tryMatchRun] at h
  split at h
  · cases h
  · have hspec := runAfterNum_spec _ _ _ _ _ h
    intro x hx
    exact ((hspec.2.trans (List.dropWhile_sublist _)).trans
      (List.dropWhile_sublist _)).subset hx

theorem paramAfterHash_sublist (label fmt g1 wsB s6 r rem : List Char)
    (h : paramAfterHash label fmt g1 wsB s6 = some (r, rem)) :
    List.Sublist rem s6 := by
  simp only [paramAfterHash] at h
  split at h
  · split at h
    · cases h
      exact (List.drop_sublist _ _).trans (List.dropWhile_sublist _)
    · cases h
  · cases h

theorem paramAfterNum_spec (label fmt g1 s4 r rem : List Char)
    (h : paramAfterNum label fmt g1 s4 = some (r, rem)) :
    rem.length < s4.length ∧ List.Sublist rem s4 := by
  simp only [paramAfterNum] at h
  split at h
  · cases h
  · rename_i c s6 heq
    split at h
    · have hsub : List.Sublist rem s6 := paramAfterHash_sublist _ _ _ _ _ _ _ h
      have hcons : List.Sublist (c :: s6) s4 := by
        rw [← heq]; exact List.dropWhile_sublist _
      have hs6 : List.Sublist rem s4 :=
        hsub.trans (((List.Sublist.refl s6).cons c).trans hcons)
      refine ⟨?_, hs6⟩
      have l1 : rem.length ≤ s6.length := hsub.length_le
      have l2 : s6.length + 1 ≤ s4.length := by
        have := hcons.length_le
        simpa using this
      omega
    · cases h

theorem paramAfterInt_spec (label fmt pre s2 r rem : List Char)
    (h : paramAfterInt label fmt pre s2 = some (r, rem)) :
    rem.length < s2.length ∧ List.Sublist rem s2 := by
  simp only [paramAfterInt] at h
  split at h
  · cases h
  · split at h
    · cases h
    · have hspec := paramAfterNum_spec _ _ _ _ _ _ h
      have l1 : ((s2.dropWhile isPySpace).dropWhile isNumCh).length ≤
          (s2.dropWhile isPySpace).length := (List.dropWhile_sublist _).length_le
      have l2 : (s2.dropWhile isPySpace).length ≤ s2.length :=
        (List.dropWhile_sublist _).length_le
      refine ⟨by omega, ?_⟩
      exact (hspec.2.trans (List.dropWhile_sublist _)).trans
        (List.dropWhile_sublist _)

theorem tryMatchParam_lt (label fmt : List Char) :
    ∀ s r rem, tryMatchParam label fmt s = some (r, rem) → rem.length < s.length := by
  intro s r rem h
  simp only [tryMatchParam] at h
  split at h
  · cases h
  · have hspec := paramAfterInt_spec _ _ _ _ _ _ h
    have l1 : ((s.dropWhile isPySpace).dropWhile Char.isDigit).length ≤
        (s.dropWhile isPySpace).length := (List.dropWhile_sublist _).length_le
    have l2 : (s.dropWhile isPySpace).length ≤ s.length :=
      (List.dropWhile_sublist _).length_le
    omega

theorem tryMatchParam_sub (label fmt : List Char) :
    ∀ s r rem, tryMatchParam label fmt s = some (r, rem) → ∀ x ∈ rem, x ∈ s := by
  intro s r rem h
  simp only [tryMatchParam] at h
  split at h
  · cases h
  · have hspec := paramAfterInt_spec _ _ _ _ _ _ h
    intro x hx
    exact ((hspec.2.trans (List.dropWhile_sublist _)).trans
      (List.dropWhile_sublist _)).subset hx

section ParseLemmas

variable {α : Type} (pf : List Char → Option α)

theorem parse_skip (pre rest : List (List Char))
    (h : ∀ l ∈ pre, hasInfix crossSectionMarker l = false) :
    ScanMll.parse_cross_section pf (pre ++ rest) =
      ScanMll.parse_cross_section pf rest := by
  induction pre with
  | nil => rfl
  | cons l pre ih =>
    have hl := h l (by simp)
    simp only [List.cons_append, ScanMll.parse_cross_section, hl,
      Bool.false_eq_true, if_false]
    exact ih fun l' hl' => h l' (by simp [hl'])

theorem parse_no_marker (lines : List (List Char))
    (h : ∀ l ∈ lines, hasInfix crossSectionMarker l = false) :
    ScanMll.parse_cross_section pf lines = .error .notFound := by
  have := parse_skip pf lines [] h
  simpa using this

theorem parse_first_line (l : List Char) (rest : List (List Char))
    (hm : hasInfix crossSectionMarker l = true) :
    ScanMll.parse_cross_section pf (l :: rest) =
      (match (pySplit l)[2]? with
       | none => .error .badLine
       | some t2 =>
         match pf t2 with
         | none => .error .badLine
         | some x =>
           match (pySplit l)[4]? with
           | none => .error .badLine
           | some t4 =>
             match pf t4 with
             | none => .error .badLine
             | some e =>
               match (pySplit l)[5]? with
               | none => .error .badLine
               | some u => .ok (x, e, u)) := by
  rw [ScanMll.parse_cross_section, if_pos hm]
  rcases (pySplit l)[2]? with _ | t2 <;> rfl

end ParseLemmas

/-! ### Generic lemmas about the `re.subn` scanner -/

section ScanLemmas

variable {m : List Char → Option (List Char × List Char)}

theorem reSubnF_congr
    (hm : ∀ s r rem, m s = some (r, rem) → rem.length < s.length) :
    ∀ f₁ f₂ b s, s.length ≤ f₁ → s.length ≤ f₂ →
      reSubnF m f₁ b s = reSubnF m f₂ b s := by
  intro f₁
  induction f₁ with
  | zero =>
    intro f₂ b s h1 _
    have hs : s = [] := List.eq_nil_of_length_eq_zero (Nat.le_zero.mp h1)
    subst hs
    cases f₂ <;> rfl
  | succ f ih =>
    intro f₂ b s h1 h2
    cases s with
    | nil => cases f₂ <;> rfl
    | cons c cs =>
      have hlen : cs.length + 1 ≤ f + 1 := by simpa using h1
      cases f₂ with
      | zero => simp at h2
      | succ f₂ =>
        have hlen2 : cs.length + 1 ≤ f₂ + 1 := by simpa using h2
        rcases hb : (if b then m (c :: cs) else none) with _ | ⟨r, rem⟩
        · simp only [reSubnF, hb]
          rw [ih f₂ (c = '\n') cs (by omega) (by omega)]
        · have hbm : m (c :: cs) = some (r, rem) := by
            cases b with
            | false => simp at hb
            | true => simpa using hb
          have hrem := hm _ _ _ hbm
          simp only [reSubnF, hb]
          rw [ih f₂ false rem (by simp at hrem; omega) (by simp at hrem; omega)]

theorem scanRe_nil (b : Bool) : scanRe m b [] = ([], 0) := rfl

theorem scanRe_false_cons (c : Char) (cs : List Char) :
    scanRe m false (c :: cs) =
      ((c :: (scanRe m (c = '\n') cs).1), (scanRe m (c = '\n') cs).2) := rfl

theorem scanRe_true_nomatch (c : Char) (cs : List Char)
    (h : m (c :: cs) = none) :
    scanRe m true (c :: cs) =
      ((c :: (scanRe m (c = '\n') cs).1), (scanRe m (c = '\n') cs).2) := by
  simp [scanRe, reSubnF, h]

theorem scanRe_true_match
    (hm : ∀ s r rem, m s = some (r, rem) → rem.length < s.length)
    (c : Char) (cs : List Char) (r rem : List Char)
    (h : m (c :: cs) = some (r, rem)) :
    scanRe m true (c :: cs) =
      (r ++ (scanRe m false rem).1, (scanRe m false rem).2 + 1) := by
  have hrem := hm _ _ _ h
  simp only [List.length_cons] at hrem
  simp [scanRe, reSubnF, h]
  rw [reSubnF_congr hm cs.length rem.length false rem (by omega) (le_refl _)]
  exact ⟨rfl, rfl⟩

theorem scan_copy (xs : List Char) (hnl : '\n' ∉ xs) (s : List Char) :
    scanRe m false (xs ++ s) =
      (xs ++ (scanRe m false s).1, (scanRe m false s).2) := by
  induction xs with
  | nil => simp
  | cons c cs ih =>
    have hc : c ≠ '\n' := fun hE => hnl (hE ▸ List.mem_cons_self c cs)
    have hcs : '\n' ∉ cs := fun hE => hnl (List.mem_cons_of_mem c hE)
    rw [List.cons_append, scanRe_false_cons, decide_eq_false hc, ih hcs]
    simp

end ScanLemmas

/-! ### Append lemmas for spans -/

theorem dropWhile_append_ne (p : Char → Bool) {l : List Char}
    (h : l.dropWhile p ≠ []) (r : List Char) :
    (l ++ r).dropWhile p = l.dropWhile p ++ r := by
  induction l with
  | nil => simp [List.dropWhile] at h
  | cons c cs ih =>
    by_cases hpc : p c = true
    · rw [List.cons_append, List.dropWhile_cons_of_pos hpc,
        List.dropWhile_cons_of_pos hpc]
      exact ih (by rwa [List.dropWhile_cons_of_pos hpc] at h)
    · have hpc' : ¬ p c = true := hpc
      rw [List.cons_append, List.dropWhile_cons_of_neg hpc',
        List.dropWhile_cons_of_neg hpc', List.cons_append]

theorem takeWhile_append_ne (p : Char → Bool) {l : List Char}
    (h : l.dropWhile p ≠ []) (r : List Char) :
    (l ++ r).takeWhile p = l.takeWhile p := by
  induction l with
  | nil => simp [List.dropWhile] at h
  | cons c cs ih =>
    by_cases hpc : p c = true
    · rw [List.cons_append, List.takeWhile_cons_of_pos hpc,
        List.takeWhile_cons_of_pos hpc]
      rw [ih (by rwa [List.dropWhile_cons_of_pos hpc] at h)]
    · have hpc' : ¬ p c = true := hpc
      rw [List.cons_append, List.takeWhile_cons_of_neg hpc',
        List.takeWhile_cons_of_neg hpc']

theorem isPrefixOf_append_nl (name : List Char) (hname : '\n' ∉ name) :
    ∀ s r, name.isPrefixOf (s ++ '\n' :: r) = name.isPrefixOf s := by
  induction name with
  | nil => intro s r; simp [List.isPrefixOf]
  | cons a n ih =>
    intro s r
    cases s with
    | nil =>
      have ha : a ≠ '\n' := fun hE => hname (hE ▸ List.mem_cons_self a n)
      simp [List.isPrefixOf, ha]
    | cons b s =>
      have hn : '\n' ∉ n := fun hE => hname (List.mem_cons_of_mem a hE)
      simp [List.isPrefixOf, ih hn]

/-! ### Line-by-line factorization of the scanner -/

section ScanJoin

variable {m : List Char → Option (List Char × List Char)}

theorem scan_false_whole (l : List Char) (hl : '\n' ∉ l) :
    scanRe m false l = (l, 0) := by
  have := scan_copy (m := m) l hl []
  simpa [scanRe_nil] using this

theorem scan_line_last
    (hm : ∀ s r rem, m s = some (r, rem) → rem.length < s.length)
    (hsub : ∀ l r rem, m l = some (r, rem) → ∀ x ∈ rem, x ∈ l)
    (l : List Char) (hl : '\n' ∉ l) :
    scanRe m true l = (procLine m l, if (m l).isSome then 1 else 0) := by
  rcases hml : m l with _ | ⟨r, rem⟩
  · cases l with
    | nil => simp [scanRe_nil, procLine, hml]
    | cons c cs =>
      have hc : c ≠ '\n' := fun hE => hl (hE ▸ List.mem_cons_self c cs)
      have hcs : '\n' ∉ cs := fun hE => hl (List.mem_cons_of_mem c hE)
      rw [scanRe_true_nomatch c cs hml, decide_eq_false hc,
        scan_false_whole cs hcs]
      simp [procLine, hml]
  · cases l with
    | nil =>
      exfalso
      have := hm _ _ _ hml
      simp at this
    | cons c cs =>
      have hrem : '\n' ∉ rem := fun hE => hl (hsub _ _ _ hml '\n' hE)
      rw [scanRe_true_match hm c cs r rem hml, scan_false_whole rem hrem]
      simp [procLine, hml]

theorem scan_line_cons
    (hm : ∀ s r rem, m s = some (r, rem) → rem.length < s.length)
    (hsub : ∀ l r rem, m l = some (r, rem) → ∀ x ∈ rem, x ∈ l)
    (safe : List Char → Bool)
    (hne : ∀ l, safe l = true → l ≠ [])
    (hcorr : ∀ l rest, safe l = true → '\n' ∉ l →
        m (l ++ '\n' :: rest) = (m l).map fun pr => (pr.1, pr.2 ++ '\n' :: rest))
    (l rest : List Char) (hsafe : safe l = true) (hl : '\n' ∉ l) :
    scanRe m true (l ++ '\n' :: rest) =
      (procLine m l ++ '\n' :: (scanRe m true rest).1,
       (scanRe m true rest).2 + if (m l).isSome then 1 else 0) := by
  have hfull := hcorr l rest hsafe hl
  cases l with
  | nil => exact absurd rfl (hne [] hsafe)
  | cons c cs =>
  have hc : c ≠ '\n' := fun hE => hl (hE ▸ List.mem_cons_self c cs)
  have hcs : '\n' ∉ cs := fun hE => hl (List.mem_cons_of_mem c hE)
  rcases hml : m (c :: cs) with _ | ⟨r, rem⟩
  · rw [hml] at hfull
    simp only [Option.map_none'] at hfull
    rw [List.cons_append] at hfull
    rw [List.cons_append, scanRe_true_nomatch _ _ hfull, decide_eq_false hc,
      scan_copy cs hcs ('\n' :: rest), scanRe_false_cons]
    simp [procLine, hml]
  · rw [hml] at hfull
    simp only [Option.map_some'] at hfull
    rw [List.cons_append] at hfull
    have hrem : '\n' ∉ rem := fun hE => hl (hsub _ _ _ hml '\n' hE)
    rw [List.cons_append, scanRe_true_match hm _ _ _ _ hfull,
      scan_copy rem hrem ('\n' :: rest), scanRe_false_cons]
    simp [procLine, hml]

theorem scan_join
    (hm : ∀ s r rem, m s = some (r, rem) → rem.length < s.length)
    (hsub : ∀ l r rem, m l = some (r, rem) → ∀ x ∈ rem, x ∈ l)
    (safe : List Char → Bool)
    (hne : ∀ l, safe l = true → l ≠ [])
    (hcorr : ∀ l rest, safe l = true → '\n' ∉ l →
        m (l ++ '\n' :: rest) = (m l).map fun pr => (pr.1, pr.2 ++ '\n' :: rest)) :
    ∀ lines : List (List Char), (∀ l ∈ lines, safe l = true ∧ '\n' ∉ l) →
      reSubn m (joinLines lines) =
        (joinLines (lines.map (procLine m)),
         lines.countP fun l => (m l).isSome) := by
  intro lines
  induction lines with
  | nil => intro _; rfl
  | cons l ls ih =>
    intro h
    have hl := h l (by simp)
    cases ls with
    | nil =>
      show scanRe m true (joinLines [l]) = _
      rw [show joinLines [l] = l from rfl,
        scan_line_last hm hsub l hl.2]
      simp [joinLines, List.countP_cons]
    | cons l' ls' =>
      show scanRe m true (joinLines (l :: l' :: ls')) = _
      have hjoin : joinLines (l :: l' :: ls') = l ++ '\n' :: joinLines (l' :: ls') := rfl
      rw [hjoin, scan_line_cons hm hsub safe hne hcorr l _ hl.1 hl.2]
      have ihr : scanRe m true (joinLines (l' :: ls')) =
          (joinLines ((l' :: ls').map (procLine m)),
           (l' :: ls').countP fun l => (m l).isSome) :=
        ih fun x hx => h x (by simp [hx])
      rw [ihr]
      have hmap : joinLines ((l :: l' :: ls').map (procLine m)) =
          procLine m l ++ '\n' :: joinLines ((l' :: ls').map (procLine m)) := rfl
      rw [hmap]
      simp [List.countP_cons]

end ScanJoin

/-! ### Append correspondence: a match attempt on a safe line ignores the
text after the line's newline -/

theorem takeWhile_append_nil (p : Char → Bool) {l : List Char} (c : Char)
    (cs : List Char) (hl : l = c :: cs) (h : l.takeWhile p = [])
    (r : List Char) : (l ++ r).takeWhile p = [] := by
  subst hl
  rw [List.takeWhile_cons] at h
  by_cases hpc : p c = true
  · rw [if_pos hpc] at h; cases h
  · rw [List.cons_append, List.takeWhile_cons, if_neg hpc]

theorem runAfterEq_append (name fmt ws2 s4 rest : List Char)
    (hname : '\n' ∉ name) (hs5 : s4.dropWhile isPySpace ≠ []) :
    runAfterEq name fmt ws2 (s4 ++ '\n' :: rest) =
      (runAfterEq name fmt ws2 s4).map fun pr => (pr.1, pr.2 ++ '\n' :: rest) := by
  simp only [runAfterEq]
  rw [takeWhile_append_ne isPySpace hs5, dropWhile_append_ne isPySpace hs5,
    isPrefixOf_append_nl name hname]
  by_cases hpre : name.isPrefixOf (s4.dropWhile isPySpace) = true
  · rw [if_pos hpre, if_pos hpre]
    have hlen : name.length ≤ (s4.dropWhile isPySpace).length :=
      (List.isPrefixOf_iff_prefix.mp hpre).length_le
    rw [List.drop_append_of_le_length hlen]
    rcases htail : (s4.dropWhile isPySpace).drop name.length with _ | ⟨c3, t3⟩
    · simp [boundaryOk, isWordCh]
    · by_cases hw : isWordCh c3 = true
      · simp [boundaryOk, hw]
      · simp [boundaryOk, hw]
  · rw [if_neg hpre, if_neg hpre]
    rfl

theorem runAfterNum_append (name fmt s2 rest : List Char)
    (hname : '\n' ∉ name) (hsafe : runNumSafe s2 = true) :
    runAfterNum name fmt (s2 ++ '\n' :: rest) =
      (runAfterNum name fmt s2).map fun pr => (pr.1, pr.2 ++ '\n' :: rest) := by
  simp only [runNumSafe] at hsafe
  rcases hdd : s2.dropWhile isPySpace with _ | ⟨c2, s4⟩
  · rw [hdd] at hsafe; cases hsafe
  have hd : s2.dropWhile isPySpace ≠ [] := by rw [hdd]; simp
  rw [hdd] at hsafe
  simp only [runAfterNum]
  rw [takeWhile_append_ne isPySpace hd, dropWhile_append_ne isPySpace hd, hdd,
    List.cons_append]
  by_cases hc2 : c2 = '='
  · have hs5 : s4.dropWhile isPySpace ≠ [] := by
      intro hE
      simp [hc2, hE] at hsafe
    subst hc2
    simp [runAfterEq_append name fmt (s2.takeWhile isPySpace) s4 rest hname hs5]
  · simp [hc2]

theorem tryMatchRun_append (name fmt l rest : List Char)
    (hname : '\n' ∉ name) (hsafe : lineSafeRun l = true) :
    tryMatchRun name fmt (l ++ '\n' :: rest) =
      (tryMatchRun name fmt l).map fun pr => (pr.1, pr.2 ++ '\n' :: rest) := by
  simp only [lineSafeRun] at hsafe
  by_cases h1e : (l.dropWhile isPySpace).isEmpty = true
  · rw [if_pos h1e] at hsafe; cases hsafe
  rw [if_neg h1e] at hsafe
  have h1 : l.dropWhile isPySpace ≠ [] := fun hE => h1e (by simp [hE])
  obtain ⟨c1, t1, hs1⟩ : ∃ c t, l.dropWhile isPySpace = c :: t := by
    rcases hh : l.dropWhile isPySpace with _ | ⟨c, t⟩
    · exact absurd hh h1
    · exact ⟨c, t, rfl⟩
  simp only [tryMatchRun]
  rw [dropWhile_append_ne isPySpace h1]
  by_cases hnum : ((l.dropWhile isPySpace).takeWhile isNumCh).isEmpty = true
  · have hnl : ((l.dropWhile isPySpace) ++ '\n' :: rest).takeWhile isNumCh = [] :=
      takeWhile_append_nil isNumCh c1 t1 hs1 (by simpa using hnum) _
    rw [hnl]
    rw [show ((l.dropWhile isPySpace).takeWhile isNumCh) = [] by simpa using hnum]
    rfl
  · rw [if_neg hnum] at hsafe
    have hs2ne : (l.dropWhile isPySpace).dropWhile isNumCh ≠ [] := by
      intro hE
      rw [runNumSafe, hE] at hsafe
      simp [List.dropWhile] at hsafe
    rw [takeWhile_append_ne isNumCh hs2ne, dropWhile_append_ne isNumCh hs2ne]
    rw [if_neg hnum, if_neg hnum]
    exact runAfterNum_append name fmt _ rest hname hsafe

theorem paramAfterHash_append (label fmt g1 wsB s6 rest : List Char)
    (hlabel : '\n' ∉ label) (hs7 : s6.dropWhile isPySpace ≠ []) :
    paramAfterHash label fmt g1 wsB (s6 ++ '\n' :: rest) =
      (paramAfterHash label fmt g1 wsB s6).map
        fun pr => (pr.1, pr.2 ++ '\n' :: rest) := by
  simp only [paramAfterHash]
  rw [takeWhile_append_ne isPySpace hs7, dropWhile_append_ne isPySpace hs7,
    isPrefixOf_append_nl label hlabel]
  by_cases hpre : label.isPrefixOf (s6.dropWhile isPySpace) = true
  · rw [if_pos hpre, if_pos hpre]
    have hlen : label.length ≤ (s6.dropWhile isPySpace).length :=
      (List.isPrefixOf_iff_prefix.mp hpre).length_le
    rw [List.drop_append_of_le_length hlen]
    rcases htail : (s6.dropWhile isPySpace).drop label.length with _ | ⟨c3, t3⟩
    · simp [boundaryOk, isWordCh]
    · by_cases hw : isWordCh c3 = true
      · simp [boundaryOk, hw]
      · simp [boundaryOk, hw]
  · rw [if_neg hpre, if_neg hpre]
    rfl

theorem paramAfterNum_append (label fmt g1 s4 rest : List Char)
    (hlabel : '\n' ∉ label) (hsafe : paramNumSafe s4 = true) :
    paramAfterNum label fmt g1 (s4 ++ '\n' :: rest) =
      (paramAfterNum label fmt g1 s4).map
        fun pr => (pr.1, pr.2 ++ '\n' :: rest) := by
  simp only [paramNumSafe] at hsafe
  by_cases h4e : s4.isEmpty = true
  · rw [if_pos h4e] at hsafe; cases hsafe
  rw [if_neg h4e] at hsafe
  obtain ⟨c4, t4, hs4⟩ : ∃ c t, s4 = c :: t := by
    rcases hh : s4 with _ | ⟨c, t⟩
    · rw [hh] at h4e; simp at h4e
    · exact ⟨c, t, rfl⟩
  by_cases hws : (s4.takeWhile isPySpace).isEmpty = true
  · have htw : s4.takeWhile isPySpace = [] := by simpa using hws
    have htwf : (s4 ++ '\n' :: rest).takeWhile isPySpace = [] :=
      takeWhile_append_nil isPySpace c4 t4 hs4 htw _
    have hdw : s4.dropWhile isPySpace = s4 := by
      subst hs4
      rw [List.takeWhile_cons] at htw
      by_cases hpc : isPySpace c4 = true
      · rw [if_pos hpc] at htw; cases htw
      · exact List.dropWhile_cons_of_neg hpc
    have hdwf : (s4 ++ '\n' :: rest).dropWhile isPySpace = s4 ++ '\n' :: rest := by
      subst hs4
      rw [List.takeWhile_cons] at htw
      by_cases hpc : isPySpace c4 = true
      · rw [if_pos hpc] at htw; cases htw
      · rw [List.cons_append]
        exact List.dropWhile_cons_of_neg hpc
    simp only [paramAfterNum]
    rw [htw, htwf, hdw, hdwf, hs4, List.cons_append]
    simp
  · rw [if_neg hws] at hsafe
    rcases hdd : s4.dropWhile isPySpace with _ | ⟨c5, s6⟩
    · rw [hdd] at hsafe; cases hsafe
    have hd : s4.dropWhile isPySpace ≠ [] := by rw [hdd]; simp
    rw [hdd] at hsafe
    simp only [paramAfterNum]
    rw [takeWhile_append_ne isPySpace hd, dropWhile_append_ne isPySpace hd, hdd,
      List.cons_append]
    by_cases hc5 : c5 = '#'
    · have hs7 : s6.dropWhile isPySpace ≠ [] := by
        intro hE
        simp [hc5, hE] at hsafe
      subst hc5
      simp [hws,
        paramAfterHash_append label fmt g1 (s4.takeWhile isPySpace) s6 rest hlabel hs7]
    · simp [hc5]

theorem paramAfterInt_append (label fmt pre s2 rest : List Char)
    (hlabel : '\n' ∉ label) (hsafe : paramIntSafe s2 = true) :
    paramAfterInt label fmt pre (s2 ++ '\n' :: rest) =
      (paramAfterInt label fmt pre s2).map
        fun pr => (pr.1, pr.2 ++ '\n' :: rest) := by
  simp only [paramIntSafe] at hsafe
  by_cases h2e : s2.isEmpty = true
  · rw [if_pos h2e] at hsafe; cases hsafe
  rw [if_neg h2e] at hsafe
  obtain ⟨c2, t2, hs2⟩ : ∃ c t, s2 = c :: t := by
    rcases hh : s2 with _ | ⟨c, t⟩
    · rw [hh] at h2e; simp at h2e
    · exact ⟨c, t, rfl⟩
  simp only [paramAfterInt]
  by_cases hws : (s2.takeWhile isPySpace).isEmpty = true
  · have htw : s2.takeWhile isPySpace = [] := by simpa using hws
    have htwf : (s2 ++ '\n' :: rest).takeWhile isPySpace = [] :=
      takeWhile_append_nil isPySpace c2 t2 hs2 htw _
    rw [htw, htwf]
    rfl
  · rw [if_neg hws] at hsafe
    have hs3ne : s2.dropWhile isPySpace ≠ [] := by
      intro hE
      rw [if_pos (by simp [hE] : (s2.dropWhile isPySpace).isEmpty = true)] at hsafe
      cases hsafe
    rw [if_neg (by simpa using hs3ne : ¬ (s2.dropWhile isPySpace).isEmpty = true)]
      at hsafe
    rw [takeWhile_append_ne isPySpace hs3ne, dropWhile_append_ne isPySpace hs3ne]
    rw [if_neg hws, if_neg hws]
    obtain ⟨c3, t3, hs3⟩ : ∃ c t, s2.dropWhile isPySpace = c :: t := by
      rcases hh : s2.dropWhile isPySpace with _ | ⟨c, t⟩
      · exact absurd hh hs3ne
      · exact ⟨c, t, rfl⟩
    by_cases hnum : ((s2.dropWhile isPySpace).takeWhile isNumCh).isEmpty = true
    · have hnl : ((s2.dropWhile isPySpace) ++ '\n' :: rest).takeWhile isNumCh = [] :=
        takeWhile_append_nil isNumCh c3 t3 hs3 (by simpa using hnum) _
      rw [hnl, show ((s2.dropWhile isPySpace).takeWhile isNumCh) = []
        by simpa using hnum]
      rfl
    · rw [if_neg hnum] at hsafe
      have hs4ne : (s2.dropWhile isPySpace).dropWhile isNumCh ≠ [] := by
        intro hE
        rw [paramNumSafe, hE] at hsafe
        simp at hsafe
      rw [takeWhile_append_ne isNumCh hs4ne, dropWhile_append_ne isNumCh hs4ne]
      rw [if_neg hnum, if_neg hnum]
      exact paramAfterNum_append label fmt _ _ rest hlabel hsafe

theorem tryMatchParam_append (label fmt l rest : List Char)
    (hlabel : '\n' ∉ label) (hsafe : lineSafeParam l = true) :
    tryMatchParam label fmt (l ++ '\n' :: rest) =
      (tryMatchParam label fmt l).map fun pr => (pr.1, pr.2 ++ '\n' :: rest) := by
  simp only [lineSafeParam] at hsafe
  by_cases h1e : (l.dropWhile isPySpace).isEmpty = true
  · rw [if_pos h1e] at hsafe; cases hsafe
  rw [if_neg h1e] at hsafe
  have h1 : l.dropWhile isPySpace ≠ [] := fun hE => h1e (by simp [hE])
  obtain ⟨c1, t1, hs1⟩ : ∃ c t, l.dropWhile isPySpace = c :: t := by
    rcases hh : l.dropWhile isPySpace with _ | ⟨c, t⟩
    · exact absurd hh h1
    · exact ⟨c, t, rfl⟩
  simp only [tryMatchParam]
  rw [takeWhile_append_ne isPySpace h1, dropWhile_append_ne isPySpace h1]
  by_cases hdig : ((l.dropWhile isPySpace).takeWhile Char.isDigit).isEmpty = true
  · have hnl : ((l.dropWhile isPySpace) ++ '\n' :: rest).takeWhile Char.isDigit = [] :=
      takeWhile_append_nil Char.isDigit c1 t1 hs1 (by simpa using hdig) _
    rw [hnl, show ((l.dropWhile isPySpace).takeWhile Char.isDigit) = []
      by simpa using hdig]
    rfl
  · rw [if_neg hdig] at hsafe
    have hs2ne : (l.dropWhile isPySpace).dropWhile Char.isDigit ≠ [] := by
      intro hE
      rw [paramIntSafe, hE] at hsafe
      simp at hsafe
    rw [takeWhile_append_ne Char.isDigit hs2ne,
      dropWhile_append_ne Char.isDigit hs2ne]
    rw [if_neg hdig, if_neg hdig]
    exact paramAfterInt_append label fmt _ _ rest hlabel hsafe

/-! ### Character classes and span computations -/

theorem isPySpace_iff (c : Char) :
    isPySpace c = true ↔
      (c = ' ' ∨ c = '\t' ∨ c = '\n' ∨ c = '\r' ∨ c = '\x0b' ∨ c = '\x0c') := by
  simp [isPySpace]

theorem isNumCh_not_space {c : Char} (h : isNumCh c = true) : isPySpace c = false := by
  simp only [isNumCh, decide_eq_true_eq] at h
  rcases h with h | rfl | rfl | rfl | rfl | rfl
  · simp only [isPySpace]
    apply decide_eq_false
    rintro (rfl | rfl | rfl | rfl | rfl | rfl) <;> simp [Char.isDigit] at h
  all_goals decide

theorem isWordCh_not_space {c : Char} (h : isWordCh c = true) : isPySpace c = false := by
  simp only [isWordCh, decide_eq_true_eq] at h
  rcases h with h | h | rfl
  · simp only [isPySpace]
    apply decide_eq_false
    rintro (rfl | rfl | rfl | rfl | rfl | rfl) <;> simp [Char.isAlpha, Char.isUpper, Char.isLower] at h
  · simp only [isPySpace]
    apply decide_eq_false
    rintro (rfl | rfl | rfl | rfl | rfl | rfl) <;> simp [Char.isDigit] at h
  · decide

theorem isPySpace_not_num {c : Char} (h : isPySpace c = true) : isNumCh c = false := by
  cases hn : isNumCh c
  · rfl
  · rw [isNumCh_not_space hn] at h; cases h

theorem dropWhile_all_append (p : Char → Bool) (a b : List Char)
    (ha : ∀ c ∈ a, p c = true) : (a ++ b).dropWhile p = b.dropWhile p := by
  rw [List.dropWhile_append]
  simp [List.dropWhile_eq_nil_iff.mpr ha]

theorem takeWhile_all_append (p : Char → Bool) (a b : List Char)
    (ha : ∀ c ∈ a, p c = true) : (a ++ b).takeWhile p = a ++ b.takeWhile p := by
  rw [List.takeWhile_append]
  rw [if_pos]
  rw [List.takeWhile_eq_self_iff.mpr ha]

/-! ### Decomposition of a successful run-card match -/

theorem runAfterEq_some (name fmt ws2 s4 r rem : List Char)
    (h : runAfterEq name fmt ws2 s4 = some (r, rem)) :
    s4 = s4.takeWhile isPySpace ++ (name ++ rem) ∧
    r = ' ' :: (fmt ++ (ws2 ++ '=' :: (s4.takeWhile isPySpace ++ name))) ∧
    boundaryOk rem = true := by
  simp only [runAfterEq] at h
  split at h
  · rename_i hpre
    split at h
    · rename_i hbound
      cases h
      obtain ⟨t, ht⟩ := List.isPrefixOf_iff_prefix.mp hpre
      have hdrop : (s4.dropWhile isPySpace).drop name.length = t := by
        rw [← ht, List.drop_left]
      refine ⟨?_, by simp, hbound⟩
      rw [hdrop]
      conv_lhs => rw [← List.takeWhile_append_dropWhile isPySpace s4]
      rw [← ht]
    · cases h
  · cases h

theorem tryMatchRun_some (name fmt l r rem : List Char)
    (h : tryMatchRun name fmt l = some (r, rem)) :
    ∃ ws1 num ws2 ws3,
      l = ws1 ++ (num ++ (ws2 ++ '=' :: (ws3 ++ (name ++ rem)))) ∧
      r = ' ' :: (fmt ++ (ws2 ++ '=' :: (ws3 ++ name))) ∧
      (∀ c ∈ ws1, isPySpace c = true) ∧ (∀ c ∈ num, isNumCh c = true) ∧
      num ≠ [] ∧ (∀ c ∈ ws2, isPySpace c = true) ∧
      (∀ c ∈ ws3, isPySpace c = true) ∧ boundaryOk rem = true := by
  simp only [tryMatchRun] at h
  split at h
  · cases h
  · rename_i hnum
    simp only [runAfterNum] at h
    split at h
    · cases h
    · rename_i c s4 heq
      split at h
      · rename_i hc
        subst hc
        obtain ⟨hs4, hr, hb⟩ := runAfterEq_some _ _ _ _ _ _ h
        refine ⟨l.takeWhile isPySpace, (l.dropWhile isPySpace).takeWhile isNumCh,
          ((l.dropWhile isPySpace).dropWhile isNumCh).takeWhile isPySpace,
          s4.takeWhile isPySpace, ?_, by simpa using hr, ?_, ?_, ?_, ?_, ?_, hb⟩
        · conv_lhs => rw [← List.takeWhile_append_dropWhile isPySpace l]
          conv_lhs =>
            rw [← List.takeWhile_append_dropWhile isNumCh (l.dropWhile isPySpace)]
          conv_lhs =>
            rw [← List.takeWhile_append_dropWhile isPySpace
              ((l.dropWhile isPySpace).dropWhile isNumCh)]
          rw [heq]
          conv_lhs => rw [hs4]
        · exact fun c hc => List.mem_takeWhile_imp hc
        · exact fun c hc => List.mem_takeWhile_imp hc
        · simpa using hnum
        · exact fun c hc => List.mem_takeWhile_imp hc
        · exact fun c hc => List.mem_takeWhile_imp hc
      · cases h


theorem run_decomp_spans (ws1 num ws2 ws3 name rem : List Char)
    (hws1 : ∀ c ∈ ws1, isPySpace c = true) (hnum : ∀ c ∈ num, isNumCh c = true)
    (hnumne : num ≠ []) (hws2 : ∀ c ∈ ws2, isPySpace c = true)
    (hws3 : ∀ c ∈ ws3, isPySpace c = true) (hname : name ≠ [])
    (hnamew : ∀ c ∈ name, isWordCh c = true) :
    (ws1 ++ (num ++ (ws2 ++ '=' :: (ws3 ++ (name ++ rem))))).dropWhile isPySpace =
      num ++ (ws2 ++ '=' :: (ws3 ++ (name ++ rem))) ∧
    (num ++ (ws2 ++ '=' :: (ws3 ++ (name ++ rem)))).takeWhile isNumCh = num ∧
    (num ++ (ws2 ++ '=' :: (ws3 ++ (name ++ rem)))).dropWhile isNumCh =
      ws2 ++ '=' :: (ws3 ++ (name ++ rem)) ∧
    (ws2 ++ '=' :: (ws3 ++ (name ++ rem))).takeWhile isPySpace = ws2 ∧
    (ws2 ++ '=' :: (ws3 ++ (name ++ rem))).dropWhile isPySpace =
      '=' :: (ws3 ++ (name ++ rem)) ∧
    (ws3 ++ (name ++ rem)).takeWhile isPySpace = ws3 ∧
    (ws3 ++ (name ++ rem)).dropWhile isPySpace = name ++ rem := by
  obtain ⟨n, nt, hn⟩ : ∃ n nt, num = n :: nt := by
    rcases num with _ | ⟨n, nt⟩
    · exact absurd rfl hnumne
    · exact ⟨n, nt, rfl⟩
  obtain ⟨mh, mt, hmh⟩ : ∃ mh mt, name = mh :: mt := by
    rcases name with _ | ⟨mh, mt⟩
    · exact absurd rfl hname
    · exact ⟨mh, mt, rfl⟩
  have hnsp : ¬ isPySpace n = true := by
    rw [isNumCh_not_space (hnum n (by rw [hn]; simp))]; simp
  have hmsp : ¬ isPySpace mh = true := by
    rw [isWordCh_not_space (hnamew mh (by rw [hmh]; simp))]; simp
  have htail_nonum :
      (ws2 ++ '=' :: (ws3 ++ (name ++ rem))).takeWhile isNumCh = [] := by
    rcases ws2 with _ | ⟨w, wt⟩
    · rw [List.nil_append, List.takeWhile_cons_of_neg (by decide)]
    · rw [List.cons_append, List.takeWhile_cons_of_neg]
      rw [isPySpace_not_num (hws2 w (by simp))]
      simp
  have htail_nodrop :
      (ws2 ++ '=' :: (ws3 ++ (name ++ rem))).dropWhile isNumCh =
        ws2 ++ '=' :: (ws3 ++ (name ++ rem)) := by
    rcases ws2 with _ | ⟨w, wt⟩
    · rw [List.nil_append, List.dropWhile_cons_of_neg (by decide)]
    · rw [List.cons_append, List.dropWhile_cons_of_neg, ← List.cons_append]
      rw [isPySpace_not_num (hws2 w (by simp))]
      simp
  refine ⟨?_, ?_, ?_, ?_, ?_, ?_, ?_⟩
  · rw [dropWhile_all_append isPySpace ws1 _ hws1, hn, List.cons_append,
      List.dropWhile_cons_of_neg hnsp, ← List.cons_append]
  · rw [takeWhile_all_append isNumCh num _ hnum, htail_nonum, List.append_nil]
  · rw [dropWhile_all_append isNumCh num _ hnum, htail_nodrop]
  · rw [takeWhile_all_append isPySpace ws2 _ hws2,
      List.takeWhile_cons_of_neg (by decide), List.append_nil]
  · rw [dropWhile_all_append isPySpace ws2 _ hws2,
      List.dropWhile_cons_of_neg (by decide)]
  · rw [takeWhile_all_append isPySpace ws3 _ hws3, hmh, List.cons_append,
      List.takeWhile_cons_of_neg hmsp, List.append_nil]
  · rw [dropWhile_all_append isPySpace ws3 _ hws3, hmh, List.cons_append,
      List.dropWhile_cons_of_neg hmsp, ← List.cons_append]

theorem tryMatchRun_eval_decomp (nameP fmtP ws1 num ws2 ws3 name rem : List Char)
    (hws1 : ∀ c ∈ ws1, isPySpace c = true) (hnum : ∀ c ∈ num, isNumCh c = true)
    (hnumne : num ≠ []) (hws2 : ∀ c ∈ ws2, isPySpace c = true)
    (hws3 : ∀ c ∈ ws3, isPySpace c = true) (hname : name ≠ [])
    (hnamew : ∀ c ∈ name, isWordCh c = true) :
    tryMatchRun nameP fmtP (ws1 ++ (num ++ (ws2 ++ '=' :: (ws3 ++ (name ++ rem))))) =
      if nameP.isPrefixOf (name ++ rem) then
        (if boundaryOk ((name ++ rem).drop nameP.length) then
          some (' ' :: (fmtP ++ (ws2 ++ '=' :: (ws3 ++ nameP))),
            (name ++ rem).drop nameP.length)
        else none)
      else none := by
  obtain ⟨g1, g2, g3, g4, g5, g6, g7⟩ :=
    run_decomp_spans ws1 num ws2 ws3 name rem hws1 hnum hnumne hws2 hws3 hname hnamew
  simp only [tryMatchRun, g1, g2, g3]
  rw [if_neg (fun hE => hnumne (List.isEmpty_iff.mp hE))]
  simp only [runAfterNum, g4, g5]
  simp only [runAfterEq, g6, g7]
  simp [List.append_assoc]

theorem lineSafeRun_decomp (ws1 num ws2 ws3 name rem : List Char)
    (hws1 : ∀ c ∈ ws1, isPySpace c = true) (hnum : ∀ c ∈ num, isNumCh c = true)
    (hnumne : num ≠ []) (hws2 : ∀ c ∈ ws2, isPySpace c = true)
    (hws3 : ∀ c ∈ ws3, isPySpace c = true) (hname : name ≠ [])
    (hnamew : ∀ c ∈ name, isWordCh c = true) :
    lineSafeRun (ws1 ++ (num ++ (ws2 ++ '=' :: (ws3 ++ (name ++ rem))))) = true := by
  obtain ⟨g1, g2, g3, g4, g5, g6, g7⟩ :=
    run_decomp_spans ws1 num ws2 ws3 name rem hws1 hnum hnumne hws2 hws3 hname hnamew
  obtain ⟨mh, mt, hmh⟩ : ∃ mh mt, name = mh :: mt := by
    rcases name with _ | ⟨mh, mt⟩
    · exact absurd rfl hname
    · exact ⟨mh, mt, rfl⟩
  simp only [lineSafeRun, g1, g2, g3]
  rw [if_neg ?hne1]
  case hne1 =>
    obtain ⟨n, nt, hn⟩ : ∃ n nt, num = n :: nt := by
      rcases num with _ | ⟨n, nt⟩
      · exact absurd rfl hnumne
      · exact ⟨n, nt, rfl⟩
    rw [hn]
    simp
  rw [if_neg (fun hE => hnumne (List.isEmpty_iff.mp hE))]
  simp only [runNumSafe, g5]
  simp only [g7]
  rw [hmh]
  simp

/-! ### Interaction of the `mmll` and `mmllmax` passes -/

theorem isPrefixOf_append_cancel (a : List Char) :
    ∀ b c : List Char, (a ++ b).isPrefixOf (a ++ c) = b.isPrefixOf c := by
  induction a with
  | nil => intro b c; rfl
  | cons x xs ih =>
    intro b c
    simp only [List.cons_append, List.isPrefixOf, beq_self_eq_true,
      Bool.true_and]
    exact ih b c

theorem isPrefixOf_self_append (a z : List Char) : a.isPrefixOf (a ++ z) = true :=
  List.isPrefixOf_iff_prefix.mpr ⟨z, rfl⟩

theorem mmllmax_split : mmllmaxName = mmllName ++ "max".toList := by decide

theorem max_name_no_match {rem : List Char} (hb : boundaryOk rem = true) :
    mmllmaxName.isPrefixOf (mmllName ++ rem) = false := by
  rw [mmllmax_split, isPrefixOf_append_cancel]
  rcases rem with _ | ⟨c, t⟩
  · decide
  · have hw : isWordCh c = false := by
      simp only [boundaryOk, Bool.not_eq_true'] at hb
      exact hb
    have hc : ('m' == c) = false := by
      apply beq_eq_false_iff_ne.mpr
      intro hE
      rw [← hE] at hw
      simp [isWordCh] at hw
    show (('m' == c) && _) = false
    rw [hc, Bool.false_and]

theorem run_min_not_max (fmt1 fmt2 l r rem : List Char)
    (h : tryMatchRun mmllName fmt1 l = some (r, rem)) :
    tryMatchRun mmllmaxName fmt2 l = none := by
  obtain ⟨ws1, num, ws2, ws3, hl, hr, hws1, hnum, hnumne, hws2, hws3, hb⟩ :=
    tryMatchRun_some _ _ _ _ _ h
  rw [hl, tryMatchRun_eval_decomp mmllmaxName fmt2 ws1 num ws2 ws3 mmllName rem
    hws1 hnum hnumne hws2 hws3 (by decide) (by decide)]
  rw [max_name_no_match hb]
  simp

theorem run_max_not_min (fmt1 fmt2 l r rem : List Char)
    (h : tryMatchRun mmllmaxName fmt2 l = some (r, rem)) :
    tryMatchRun mmllName fmt1 l = none := by
  obtain ⟨ws1, num, ws2, ws3, hl, hr, hws1, hnum, hnumne, hws2, hws3, hb⟩ :=
    tryMatchRun_some _ _ _ _ _ h
  rw [hl, tryMatchRun_eval_decomp mmllName fmt1 ws1 num ws2 ws3 mmllmaxName rem
    hws1 hnum hnumne hws2 hws3 (by decide) (by decide)]
  have hsplit : mmllmaxName ++ rem = mmllName ++ ('m' :: ('a' :: ('x' :: rem))) := rfl
  rw [hsplit, isPrefixOf_self_append, List.drop_left]
  have hbf : boundaryOk ('m' :: ('a' :: ('x' :: rem))) = false := rfl
  rw [hbf]
  simp

theorem minpass_line (fmt1 fmt2 l : List Char)
    (hfmt1ne : fmt1 ≠ []) (hfmt1 : ∀ c ∈ fmt1, isNumCh c = true)
    (hsafe : lineSafeRun l = true) (hnl : '\n' ∉ l) :
    lineSafeRun (procLine (tryMatchRun mmllName fmt1) l) = true ∧
    '\n' ∉ procLine (tryMatchRun mmllName fmt1) l ∧
    (tryMatchRun mmllmaxName fmt2 (procLine (tryMatchRun mmllName fmt1) l)).isSome =
      (tryMatchRun mmllmaxName fmt2 l).isSome := by
  rcases hml : tryMatchRun mmllName fmt1 l with _ | ⟨r, rem⟩
  · refine ⟨?_, ?_, ?_⟩ <;> simp [procLine, hml, hsafe, hnl]
  · obtain ⟨ws1, num, ws2, ws3, hl, hr, hws1, hnum, hnumne, hws2, hws3, hb⟩ :=
      tryMatchRun_some _ _ _ _ _ hml
    have hproc : procLine (tryMatchRun mmllName fmt1) l = r ++ rem := by
      simp [procLine, hml]
    have hshape : r ++ rem =
        [' '] ++ (fmt1 ++ (ws2 ++ '=' :: (ws3 ++ (mmllName ++ rem)))) := by
      rw [hr]; simp
    have hsp : ∀ c ∈ [' '], isPySpace c = true := by
      intro c hc
      simp only [List.mem_singleton] at hc
      subst hc; decide
    have hnlparts : '\n' ∉ ws2 ∧ '\n' ∉ ws3 ∧ '\n' ∉ rem := by
      rw [hl] at hnl
      simp only [List.mem_append, List.mem_cons] at hnl
      push_neg at hnl
      exact ⟨hnl.2.2.1, hnl.2.2.2.2.1, hnl.2.2.2.2.2.2⟩
    refine ⟨?_, ?_, ?_⟩
    · rw [hproc, hshape]
      exact lineSafeRun_decomp [' '] fmt1 ws2 ws3 mmllName rem hsp hfmt1
        hfmt1ne hws2 hws3 (by decide) (by decide)
    · rw [hproc, hshape]
      have hfmtnl : '\n' ∉ fmt1 := by
        intro hE
        have := hfmt1 '\n' hE
        simp [isNumCh] at this
      simp only [List.mem_append, List.mem_singleton, List.mem_cons]
      push_neg
      refine ⟨by decide, hfmtnl, hnlparts.1, by decide, hnlparts.2.1, ?_, hnlparts.2.2⟩
      intro hE
      have : isWordCh '\n' = true := by
        have : ∀ c ∈ mmllName, isWordCh c = true := by decide
        exact this _ hE
      simp [isWordCh] at this
    · rw [hproc, hshape,
        tryMatchRun_eval_decomp mmllmaxName fmt2 [' '] fmt1 ws2 ws3 mmllName rem
          hsp hfmt1 hfmt1ne hws2 hws3 (by decide) (by decide),
        max_name_no_match hb, run_min_not_max fmt1 fmt2 l r rem hml]
      simp

theorem lineSafeRun_ne (l : List Char) (h : lineSafeRun l = true) : l ≠ [] := by
  intro hE
  rw [hE] at h
  exact absurd h (by decide)

theorem option_eq_none_of_isSome_false {α : Type} {o : Option α}
    (h : o.isSome = false) : o = none := by
  cases o
  · rfl
  · simp at h

theorem update_run_card_factor (fmtMin fmtMax : List Char) (lines : List (List Char))
    (hfmtne : fmtMin ≠ []) (hfmt : ∀ c ∈ fmtMin, isNumCh c = true)
    (hl : ∀ l ∈ lines, lineSafeRun l = true ∧ '\n' ∉ l) :
    reSubn (tryMatchRun mmllName fmtMin) (joinLines lines) =
      (joinLines (lines.map (procLine (tryMatchRun mmllName fmtMin))),
       lines.countP fun l => (tryMatchRun mmllName fmtMin l).isSome) ∧
    reSubn (tryMatchRun mmllmaxName fmtMax)
        (joinLines (lines.map (procLine (tryMatchRun mmllName fmtMin)))) =
      (joinLines ((lines.map (procLine (tryMatchRun mmllName fmtMin))).map
         (procLine (tryMatchRun mmllmaxName fmtMax))),
       lines.countP fun l => (tryMatchRun mmllmaxName fmtMax l).isSome) := by
  constructor
  · exact scan_join (tryMatchRun_lt mmllName fmtMin) (tryMatchRun_sub mmllName fmtMin)
      lineSafeRun lineSafeRun_ne
      (fun l rest hs _ => tryMatchRun_append mmllName fmtMin l rest (by decide) hs)
      lines hl
  · have hmapped : ∀ l ∈ lines.map (procLine (tryMatchRun mmllName fmtMin)),
        lineSafeRun l = true ∧ '\n' ∉ l := by
      intro l' hl'
      obtain ⟨l, hmem, rfl⟩ := List.mem_map.mp hl'
      obtain ⟨hs, hn, _⟩ := minpass_line fmtMin fmtMax l hfmtne hfmt
        (hl l hmem).1 (hl l hmem).2
      exact ⟨hs, hn⟩
    have h2 := scan_join (tryMatchRun_lt mmllmaxName fmtMax)
      (tryMatchRun_sub mmllmaxName fmtMax) lineSafeRun lineSafeRun_ne
      (fun l rest hs _ => tryMatchRun_append mmllmaxName fmtMax l rest (by decide) hs)
      (lines.map (procLine (tryMatchRun mmllName fmtMin))) hmapped
    rw [h2, List.countP_map]
    have hcnt : lines.countP
        ((fun l => (tryMatchRun mmllmaxName fmtMax l).isSome) ∘
          procLine (tryMatchRun mmllName fmtMin)) =
        lines.countP fun l => (tryMatchRun mmllmaxName fmtMax l).isSome := by
      apply List.countP_congr
      intro l hmem
      have := (minpass_line fmtMin fmtMax l hfmtne hfmt
        (hl l hmem).1 (hl l hmem).2).2.2
      simp only [Function.comp]
      rw [this]
    rw [hcnt]

theorem dropEq_decomp (pre X : List Char) (hpre : ∀ c ∈ pre, c ≠ '=') :
    (pre ++ '=' :: X).dropWhile (fun c => !(c = '=')) = '=' :: X := by
  rw [dropWhile_all_append (fun c => !(c = '=')) pre _ ?hall,
    List.dropWhile_cons_of_neg (by simp)]
  case hall =>
    intro c hc
    simpa using hpre c hc

theorem procLine_none (m : List Char → Option (List Char × List Char))
    (l : List Char) (h : m l = none) : procLine m l = l := by
  simp [procLine, h]

theorem procLine_some (m : List Char → Option (List Char × List Char))
    (l r rem : List Char) (h : m l = some (r, rem)) : procLine m l = r ++ rem := by
  simp [procLine, h]

theorem dropEq_of_decomp (ws1 num ws2 X : List Char)
    (hws1 : ∀ c ∈ ws1, isPySpace c = true) (hnum : ∀ c ∈ num, isNumCh c = true)
    (hws2 : ∀ c ∈ ws2, isPySpace c = true) :
    (ws1 ++ (num ++ (ws2 ++ '=' :: X))).dropWhile (fun c => !(c = '=')) =
      '=' :: X := by
  have hassoc : ws1 ++ (num ++ (ws2 ++ '=' :: X)) =
      (ws1 ++ num ++ ws2) ++ '=' :: X := by simp
  rw [hassoc]
  apply dropEq_decomp
  intro c hc
  simp only [List.mem_append] at hc
  rcases hc with (hc | hc) | hc
  · intro hE; subst hE; exact absurd (hws1 '=' hc) (by decide)
  · intro hE; subst hE; exact absurd (hnum '=' hc) (by decide)
  · intro hE; subst hE; exact absurd (hws2 '=' hc) (by decide)

/-- C2 counterexample: on a template whose first line is blank, the leading
`\s*` of the `MULTILINE` pattern absorbs the newline of the blank line, so
the written card has one line fewer than the template: the blank line is
*not* copied verbatim.  (The numeric substitutions themselves succeed.) -/
theorem C2_counterexample :
    exceptOk (ScanMll.update_run_card "20".toList "30".toList
        (joinLines ["".toList, "1 = mmll".toList, "1 = mmllmax".toList])) = true ∧
    exceptVal (ScanMll.update_run_card "20".toList "30".toList
        (joinLines ["".toList, "1 = mmll".toList, "1 = mmllmax".toList])) =
      joinLines [" 20 = mmll".toList, " 30 = mmllmax".toList] ∧
    (splitLines (joinLines
      ["".toList, "1 = mmll".toList, "1 = mmllmax".toList])).length = 3 ∧
    (splitLines (joinLines
      [" 20 = mmll".toList, " 30 = mmllmax".toList])).length = 2 ∧
    "".toList ∈ splitLines (joinLines
      ["".toList, "1 = mmll".toList, "1 = mmllmax".toList]) ∧
    "".toList ∉ splitLines (joinLines
      [" 20 = mmll".toList, " 30 = mmllmax".toList]) := by
  decide

/-- C2 (amended): on templates all of whose lines are scan-safe (no
whitespace-only line, no line ending right after its numeric field or its
`=`), `update_run_card` rewrites exactly the lines matching the `mmll` and
`mmllmax` patterns — replacing the leading whitespace-plus-numeric field by
a single space plus the formatted value and keeping everything from the
first `=` onward unchanged — and copies every other line verbatim. -/
theorem C2_update_run_card_structure
    (fmtMin fmtMax : List Char) (lines : List (List Char))
    (hfmtMinNe : fmtMin ≠ []) (hfmtMin : ∀ c ∈ fmtMin, isNumCh c = true)
    (hfmtMax : ∀ c ∈ fmtMax, isNumCh c = true)
    (hlines : ∀ l ∈ lines, lineSafeRun l = true ∧ '\n' ∉ l)
    (hmin : lines.countP (fun l => (tryMatchRun mmllName fmtMin l).isSome) ≠ 0)
    (hmax : lines.countP (fun l => (tryMatchRun mmllmaxName fmtMax l).isSome) ≠ 0) :
    ScanMll.update_run_card fmtMin fmtMax (joinLines lines) =
      .ok (joinLines (lines.map fun l =>
        procLine (tryMatchRun mmllmaxName fmtMax)
          (procLine (tryMatchRun mmllName fmtMin) l))) ∧
    (∀ l ∈ lines, tryMatchRun mmllName fmtMin l = none →
      tryMatchRun mmllmaxName fmtMax l = none →
      procLine (tryMatchRun mmllmaxName fmtMax)
        (procLine (tryMatchRun mmllName fmtMin) l) = l) ∧
    (∀ l ∈ lines,
      (procLine (tryMatchRun mmllmaxName fmtMax)
          (procLine (tryMatchRun mmllName fmtMin) l)).dropWhile
            (fun c => !(c = '=')) =
        l.dropWhile (fun c => !(c = '='))) := by
  obtain ⟨h1, h2⟩ := update_run_card_factor fmtMin fmtMax lines hfmtMinNe hfmtMin hlines
  refine ⟨?_, ?_, ?_⟩
  · simp only [ScanMll.update_run_card, h1, h2]
    rw [if_neg (by push_neg; exact ⟨hmin, hmax⟩)]
    rw [List.map_map]
    rfl
  · intro l _ hn1 hn2
    rw [procLine_none _ _ hn1, procLine_none _ _ hn2]
  · intro l hmem
    rcases hml : tryMatchRun mmllName fmtMin l with _ | ⟨r, rem⟩
    · rcases hmx : tryMatchRun mmllmaxName fmtMax l with _ | ⟨r2, rem2⟩
      · simp [procLine, hml, hmx]
      · obtain ⟨ws1, num, ws2, ws3, hl, hr, hws1, hnum, hnumne, hws2, hws3, hb⟩ :=
          tryMatchRun_some _ _ _ _ _ hmx
        rw [procLine_none _ _ hml, procLine_some _ _ _ _ hmx]
        have hshape : r2 ++ rem2 =
            [' '] ++ (fmtMax ++ (ws2 ++ '=' :: (ws3 ++ (mmllmaxName ++ rem2)))) := by
          rw [hr]; simp
        rw [hshape, hl]
        rw [dropEq_of_decomp [' '] fmtMax ws2 _
          (by intro c hc; simp only [List.mem_singleton] at hc; subst hc; decide)
          hfmtMax hws2]
        rw [dropEq_of_decomp ws1 num ws2 _ hws1 hnum hws2]
    · obtain ⟨ws1, num, ws2, ws3, hl, hr, hws1, hnum, hnumne, hws2, hws3, hb⟩ :=
        tryMatchRun_some _ _ _ _ _ hml
      have hproc1 : procLine (tryMatchRun mmllName fmtMin) l = r ++ rem :=
        procLine_some _ _ _ _ hml
      have hnone2 : tryMatchRun mmllmaxName fmtMax
          (procLine (tryMatchRun mmllName fmtMin) l) = none := by
        apply option_eq_none_of_isSome_false
        rw [(minpass_line fmtMin fmtMax l hfmtMinNe hfmtMin
          (hlines l hmem).1 (hlines l hmem).2).2.2,
          run_min_not_max fmtMin fmtMax l r rem hml]
        rfl
      rw [procLine_none _ _ hnone2, hproc1]
      have hshape : r ++ rem =
          [' '] ++ (fmtMin ++ (ws2 ++ '=' :: (ws3 ++ (mmllName ++ rem)))) := by
        rw [hr]; simp
      rw [hshape, hl]
      rw [dropEq_of_decomp [' '] fmtMin ws2 _
        (by intro c hc; simp only [List.mem_singleton] at hc; subst hc; decide)
        hfmtMin hws2]
      rw [dropEq_of_decomp ws1 num ws2 _ hws1 hnum hws2]

theorem C2_update_run_card_structure_witness :
    ScanMll.update_run_card "15".toList "25".toList
        (joinLines ["  10.0 = mmll ! min cut".toList, "# comment".toList,
          "  20.0 = mmllmax ! max cut".toList]) =
      .ok (joinLines [" 15 = mmll ! min cut".toList, "# comment".toList,
        " 25 = mmllmax ! max cut".toList]) := by
  have h := C2_update_run_card_structure "15".toList "25".toList
    ["  10.0 = mmll ! min cut".toList, "# comment".toList,
     "  20.0 = mmllmax ! max cut".toList]
    (by decide) (by decide) (by decide) (by decide) (by decide) (by decide)
  rw [h.1]
  rfl

theorem lineSafeParam_ne (l : List Char) (h : lineSafeParam l = true) : l ≠ [] := by
  intro hE
  rw [hE] at h
  exact absurd h (by decide)

/-- C4 counterexample: the claim fails on templates whose lines are not
scan-safe.  In the template `"5\n= mmll\n6\n= mmllmax"` no single line
matches the `mmll` pattern and none matches the `mmllmax` pattern, yet
under `re.MULTILINE` the pattern's `\s*` matches across the line breaks,
both `re.subn` counts are 1, no `RuntimeError` is raised and the run card
IS written; likewise the param template `"1 2 #\ncG"` has no line carrying
the `# cG` comment, yet `update_param_card` writes the card without
raising. -/
theorem C4_counterexample :
    (∀ l ∈ ["5".toList, "= mmll".toList, "6".toList, "= mmllmax".toList],
      tryMatchRun mmllName "20".toList l = none ∧
      tryMatchRun mmllmaxName "30".toList l = none) ∧
    exceptOk (ScanMll.update_run_card "20".toList "30".toList
      (joinLines
        ["5".toList, "= mmll".toList, "6".toList, "= mmllmax".toList])) = true ∧
    (∀ l ∈ ["1 2 #".toList, "cG".toList],
      tryMatchParam "cG".toList "1.000000e+00".toList l = none) ∧
    exceptOk (ScanMllCxx.update_param_card "cG".toList "1.000000e+00".toList
      (joinLines ["1 2 #".toList, "cG".toList])) = true := by
  decide

/-- C4 (amended): on templates all of whose lines are scan-safe (cf. C2: no
whitespace-only line, no line ending right after its numeric field, its
`=`, its bare integer or its `#`), when no line matches the `mmll` pattern
(or none matches the `mmllmax` pattern) `update_run_card` raises a
`RuntimeError` and returns no text to write to `run_card.dat`; likewise
`update_param_card` raises and writes nothing when no line carries the
`# LABEL` comment.  Without the proviso the `MULTILINE` pattern can match
across line breaks and the cards are written without raising. -/
theorem C4_update_cards_error (fmtMin fmtMax label pfmt : List Char)
    (lines plines : List (List Char))
    (hfmtne : fmtMin ≠ []) (hfmt : ∀ c ∈ fmtMin, isNumCh c = true)
    (hlines : ∀ l ∈ lines, lineSafeRun l = true ∧ '\n' ∉ l)
    (hplines : ∀ l ∈ plines, lineSafeParam l = true ∧ '\n' ∉ l)
    (hlabelnl : '\n' ∉ label) :
    ((lines.countP (fun l => (tryMatchRun mmllName fmtMin l).isSome) = 0 ∨
      lines.countP (fun l => (tryMatchRun mmllmaxName fmtMax l).isSome) = 0) →
      ScanMll.update_run_card fmtMin fmtMax (joinLines lines) = .error ()) ∧
    (plines.countP (fun l => (tryMatchParam label pfmt l).isSome) = 0 →
      ScanMllCxx.update_param_card label pfmt (joinLines plines) = .error ()) := by
  constructor
  · intro hc
    obtain ⟨h1, h2⟩ := update_run_card_factor fmtMin fmtMax lines hfmtne hfmt hlines
    simp only [ScanMll.update_run_card, h1, h2]
    rw [if_pos hc]
  · intro hc
    have h := scan_join (tryMatchParam_lt label pfmt) (tryMatchParam_sub label pfmt)
      lineSafeParam lineSafeParam_ne
      (fun l rest hs _ => tryMatchParam_append label pfmt l rest hlabelnl hs)
      plines hplines
    simp only [ScanMllCxx.update_param_card, h]
    rw [if_pos hc]

theorem C4_update_cards_error_witness :
    ScanMll.update_run_card "15".toList "25".toList
        (joinLines ["x = other ! c".toList]) = .error () ∧
    ScanMllCxx.update_param_card "cG".toList "1.000000e+00".toList
        (joinLines ["  1   2.000000e+00   # cX".toList]) = .error () := by
  have h := C4_update_cards_error "15".toList "25".toList "cG".toList
    "1.000000e+00".toList ["x = other ! c".toList]
    ["  1   2.000000e+00   # cX".toList]
    (by decide) (by decide) (by decide) (by decide) (by decide)
  exact ⟨h.1 (Or.inl (by decide)), h.2 (by decide)⟩

/-- C1: on a log whose lines are a prefix without the marker, then a marker
line whose tokens 2 and 4 parse as floats and whose token 5 exists,
`parse_cross_section` returns exactly (float(parts[2]), float(parts[4]),
parts[5]) of that first marker line — whatever lines follow it. -/
theorem C1_parse_first_marker_line {α : Type} (pf : List Char → Option α)
    (pre post : List (List Char)) (l : List Char) (x e : α) (t2 t4 u : List Char)
    (hpre : ∀ l' ∈ pre, hasInfix crossSectionMarker l' = false)
    (hm : hasInfix crossSectionMarker l = true)
    (h2 : (pySplit l)[2]? = some t2) (hx : pf t2 = some x)
    (h4 : (pySplit l)[4]? = some t4) (he : pf t4 = some e)
    (h5 : (pySplit l)[5]? = some u) :
    ScanMll.parse_cross_section pf (pre ++ l :: post) = .ok (x, e, u) := by
  rw [parse_skip pf pre _ hpre, parse_first_line pf l post hm]
  simp [h2, hx, h4, he, h5]

theorem C1_parse_first_marker_line_witness :
    ScanMll.parse_cross_section (fun s => some s)
        ["no marker here".toList,
         " Cross-section :   1.234e+02 +- 5.67e-01 pb".toList,
         " Cross-section :   9.9e+09 +- 1.0e+00 fb".toList] =
      .ok ("1.234e+02".toList, "5.67e-01".toList, "pb".toList) :=
  C1_parse_first_marker_line (fun s => some s) ["no marker here".toList]
    [" Cross-section :   9.9e+09 +- 1.0e+00 fb".toList]
    " Cross-section :   1.234e+02 +- 5.67e-01 pb".toList
    "1.234e+02".toList "5.67e-01".toList "1.234e+02".toList "5.67e-01".toList
    "pb".toList
    (by decide) (by decide) (by decide) rfl (by decide) rfl (by decide)

/-- C3: `parse_cross_section` raises exactly when parsing fails: a
`RuntimeError` (`notFound`) when no line holds the marker, a `RuntimeError`
(`badLine`) when the first marker line has fewer than six tokens or its
token 2 or 4 does not parse as a float, and otherwise it returns a triple
without raising. -/
theorem C3_parse_error_iff {α : Type} (pf : List Char → Option α)
    (lines : List (List Char)) :
    ((∀ l ∈ lines, hasInfix crossSectionMarker l = false) →
      ScanMll.parse_cross_section pf lines = .error .notFound) ∧
    (∀ pre l post, lines = pre ++ l :: post →
      (∀ l' ∈ pre, hasInfix crossSectionMarker l' = false) →
      hasInfix crossSectionMarker l = true →
      ((ScanMll.parse_cross_section pf lines = .error .badLine ↔
          badMarkerLine pf l = true) ∧
       (badMarkerLine pf l = false →
         ∃ x e u, ScanMll.parse_cross_section pf lines = .ok (x, e, u)))) := by
  constructor
  · exact parse_no_marker pf lines
  · intro pre l post hsplit hpre hm
    subst hsplit
    rw [parse_skip pf pre _ hpre, parse_first_line pf l post hm]
    rcases hp2 : (pySplit l)[2]? with _ | t2
    · have hl6 : (pySplit l).length < 6 := by
        have := List.getElem?_eq_none_iff.mp hp2
        omega
      constructor
      · simp [badMarkerLine, hl6]
      · intro hbad
        rw [badMarkerLine] at hbad
        simp [hl6] at hbad
    · rcases hx : pf t2 with _ | x
      · constructor
        · simp [badMarkerLine, hp2, hx]
        · intro hbad
          rw [badMarkerLine] at hbad
          simp [hp2, hx] at hbad
      · rcases hp4 : (pySplit l)[4]? with _ | t4
        · have hl6 : (pySplit l).length < 6 := by
            have := List.getElem?_eq_none_iff.mp hp4
            omega
          constructor
          · simp [badMarkerLine, hl6, hx]
          · intro hbad
            rw [badMarkerLine] at hbad
            simp [hl6] at hbad
        · rcases he : pf t4 with _ | e
          · constructor
            · simp [badMarkerLine, hp2, hx, hp4, he]
            · intro hbad
              rw [badMarkerLine] at hbad
              simp [hp2, hx, hp4, he] at hbad
          · rcases hp5 : (pySplit l)[5]? with _ | u
            · have hl6 : (pySplit l).length < 6 := by
                have := List.getElem?_eq_none_iff.mp hp5
                omega
              constructor
              · simp [badMarkerLine, hl6, hx, he]
              · intro hbad
                rw [badMarkerLine] at hbad
                simp [hl6] at hbad
            · have hl6 : ¬ (pySplit l).length < 6 := by
                have := (List.getElem?_eq_some.mp hp5).1
                omega
              constructor
              · simp [badMarkerLine, hp2, hx, hp4, he, hl6]
              · intro _
                exact ⟨x, e, u, by simp [hx, he]⟩

theorem C3_parse_error_iff_witness :
    (ScanMll.parse_cross_section (fun s => some s)
        ["noise".toList, " Cross-section : 2".toList] =
        Except.error ParseErr.badLine ↔
      badMarkerLine (fun s : List Char => some s) " Cross-section : 2".toList =
        true) ∧
    ScanMll.parse_cross_section (fun s : List Char => some s) ["noise".toList] =
      .error .notFound := by
  have h := C3_parse_error_iff (fun s : List Char => some s)
    ["noise".toList, " Cross-section : 2".toList]
  have h2 := C3_parse_error_iff (fun s : List Char => some s) ["noise".toList]
  exact ⟨(h.2 ["noise".toList] " Cross-section : 2".toList [] rfl
    (by decide) (by decide)).1, h2.1 (by decide)⟩

/-- C5: both scripts invoke the generator with exactly
`[str(GENERATE_EVENTS), run_name, "-f"]`, redirect stdout to
`logs/<run_name>.log` with stderr merged into stdout, raise on a non-zero
exit status (returning no log path), and return `logs/<run_name>.log` on a
zero exit status. -/
theorem C5_run_madgraph_contract (base rn : List Char) (ec : Nat) :
    (ScanMll.run_madgraph_call base rn).argv =
      [ScanMll.GENERATE_EVENTS, rn, "-f".toList] ∧
    (ScanMll.run_madgraph_call base rn).outFile =
      base ++ ('/' :: 'l' :: 'o' :: 'g' :: 's' :: '/' ::
        (rn ++ ['.', 'l', 'o', 'g'])) ∧
    (ScanMll.run_madgraph_call base rn).errToOut = true ∧
    (ScanMllCxx.run_madgraph_call base rn).argv =
      [ScanMllCxx.GENERATE_EVENTS base, rn, "-f".toList] ∧
    (ScanMllCxx.run_madgraph_call base rn).outFile =
      base ++ ('/' :: 'l' :: 'o' :: 'g' :: 's' :: '/' ::
        (rn ++ ['.', 'l', 'o', 'g'])) ∧
    (ScanMllCxx.run_madgraph_call base rn).errToOut = true ∧
    (ec ≠ 0 → ScanMll.run_madgraph_result ec base rn = .error () ∧
      ScanMllCxx.run_madgraph_result ec base rn = .error ()) ∧
    ScanMll.run_madgraph_result 0 base rn = .ok (ScanMll.logPath base rn) ∧
    ScanMllCxx.run_madgraph_result 0 base rn = .ok (ScanMllCxx.logPath base rn) := by
  refine ⟨rfl, ?_, rfl, rfl, ?_, rfl, ?_, rfl, rfl⟩
  · show ScanMll.logPath base rn = _
    simp [ScanMll.logPath, ScanMll.LOG_DIR, List.append_assoc]
  · show ScanMllCxx.logPath base rn = _
    simp [ScanMllCxx.logPath, ScanMllCxx.LOG_DIR, List.append_assoc]
  · intro hec
    constructor <;> simp [ScanMll.run_madgraph_result,
      ScanMllCxx.run_madgraph_result, hec]

theorem C5_run_madgraph_contract_witness :
    ScanMll.run_madgraph_result 1 "/work".toList "run1".toList = .error () ∧
    ScanMllCxx.run_madgraph_result 0 "/work".toList "run1".toList =
      .ok (ScanMllCxx.logPath "/work".toList "run1".toList) := by
  have h := C5_run_madgraph_contract "/work".toList "run1".toList 1
  exact ⟨(h.2.2.2.2.2.2.1 (by decide)).1, h.2.2.2.2.2.2.2.2⟩

/-! ### The drivers: output-file structure and action order -/

theorem scanGo_file_plain {α : Type} (pf : List Char → Option α)
    (renderE : α → List Char) (oracle : ℚ × ℚ → RunOutcome) (template : List Char) :
    ∀ (bs : List (ℚ × ℚ)) (file : List Char) (tr : List ScanAct),
      (ScanMll.scanGo pf renderE oracle template bs (file, tr)).1 =
        file ++ ((bs.takeWhile (ScanMll.runOk pf oracle template)).map
          (ScanMll.rowOf pf renderE oracle)).flatten := by
  intro bs
  induction bs with
  | nil => intro file tr; simp [ScanMll.scanGo]
  | cons b rest ih =>
    intro file tr
    cases hupd : ScanMll.update_run_card (fmtG6 b.1) (fmtG6 b.2) template with
    | error e =>
      have hok : ScanMll.runOk pf oracle template b = false := by
        simp [ScanMll.runOk, hupd, exceptOk]
      simp [ScanMll.scanGo, hupd, List.takeWhile_cons, hok]
    | ok t =>
      by_cases hec : (oracle b).exitCode = 0
      · cases hpar : ScanMll.parse_cross_section pf (oracle b).logLines with
        | error e2 =>
          have hok : ScanMll.runOk pf oracle template b = false := by
            simp [ScanMll.runOk, hpar]
          simp [ScanMll.scanGo, hupd, hec, hpar, List.takeWhile_cons, hok]
        | ok trip =>
          obtain ⟨x, e2, u⟩ := trip
          have hok : ScanMll.runOk pf oracle template b = true := by
            simp [ScanMll.runOk, hupd, exceptOk, hec, hpar]
          have hrow : ScanMll.rowOf pf renderE oracle b =
              ScanMll.rowLine renderE b x e2 u := by
            simp [ScanMll.rowOf, hpar]
          simp only [ScanMll.scanGo, hupd, hec, if_pos, hpar]
          rw [ih]
          simp [List.takeWhile_cons, hok, hrow]
      · have hok : ScanMll.runOk pf oracle template b = false := by
          simp [ScanMll.runOk, hec]
        simp [ScanMll.scanGo, hupd, hec, List.takeWhile_cons, hok]

theorem scanGo_file_cxx {α : Type} (pf : List Char → Option α)
    (renderE : α → List Char) (oracleC : ℚ × ℚ → ℤ → RunOutcome)
    (template ptemplate label : List Char) :
    ∀ (ps : List ((ℚ × ℚ) × ℤ)) (file : List Char) (tr : List ScanAct),
      (ScanMllCxx.scanGo pf renderE oracleC template ptemplate label ps (file, tr)).1 =
        file ++ ((ps.takeWhile
            (ScanMllCxx.runOk pf oracleC template ptemplate label)).map
          (ScanMllCxx.rowOf pf renderE oracleC)).flatten := by
  intro ps
  induction ps with
  | nil => intro file tr; simp [ScanMllCxx.scanGo]
  | cons p rest ih =>
    obtain ⟨b, c⟩ := p
    intro file tr
    cases hupd : ScanMllCxx.update_run_card (fmtG6 b.1) (fmtG6 b.2) template with
    | error e =>
      have hok : ScanMllCxx.runOk pf oracleC template ptemplate label (b, c) = false := by
        simp [ScanMllCxx.runOk, hupd, exceptOk]
      simp [ScanMllCxx.scanGo, hupd, List.takeWhile_cons, hok]
    | ok t =>
      cases hupd2 : ScanMllCxx.update_param_card label (fmtE6 c) ptemplate with
      | error e =>
        have hok : ScanMllCxx.runOk pf oracleC template ptemplate label (b, c) = false := by
          simp [ScanMllCxx.runOk, hupd2, exceptOk]
        simp [ScanMllCxx.scanGo, hupd, hupd2, List.takeWhile_cons, hok]
      | ok t2 =>
        by_cases hec : (oracleC b c).exitCode = 0
        · cases hpar : ScanMllCxx.parse_cross_section pf (oracleC b c).logLines with
          | error e2 =>
            have hok : ScanMllCxx.runOk pf oracleC template ptemplate label (b, c) =
                false := by
              simp [ScanMllCxx.runOk, hpar]
            simp [ScanMllCxx.scanGo, hupd, hupd2, hec, hpar,
              List.takeWhile_cons, hok]
          | ok trip =>
            obtain ⟨x, e2, u⟩ := trip
            have hok : ScanMllCxx.runOk pf oracleC template ptemplate label (b, c) =
                true := by
              simp [ScanMllCxx.runOk, hupd, hupd2, exceptOk, hec, hpar]
            have hrow : ScanMllCxx.rowOf pf renderE oracleC (b, c) =
                ScanMllCxx.rowLine renderE b c x e2 u := by
              simp [ScanMllCxx.rowOf, hpar]
            simp only [ScanMllCxx.scanGo, hupd, hupd2, hec, if_pos, hpar]
            rw [ih]
            simp [List.takeWhile_cons, hok, hrow]
        · have hok : ScanMllCxx.runOk pf oracleC template ptemplate label (b, c) =
              false := by
            simp [ScanMllCxx.runOk, hec]
          simp [ScanMllCxx.scanGo, hupd, hupd2, hec, List.takeWhile_cons, hok]

/-- C6: each driver writes its fixed header exactly once before any run,
then appends exactly one formatted row per completed run, in scan order:
after the loop the output file is the header followed by the rows of the
maximal successful prefix of the scan sequence, in execution order. -/
theorem C6_output_file_structure {α : Type} (pf : List Char → Option α)
    (renderE : α → List Char) (oracle : ℚ × ℚ → RunOutcome)
    (oracleC : ℚ × ℚ → ℤ → RunOutcome) (template ptemplate label : List Char) :
    (ScanMll.scanMain pf renderE oracle template).1 =
      ScanMll.headerLine ++
        ((MASS_BINS.takeWhile (ScanMll.runOk pf oracle template)).map
          (ScanMll.rowOf pf renderE oracle)).flatten ∧
    (ScanMllCxx.scanMain pf renderE oracleC template ptemplate label).1 =
      ScanMllCxx.headerLine ++
        ((ScanMllCxx.scanPairs.takeWhile
            (ScanMllCxx.runOk pf oracleC template ptemplate label)).map
          (ScanMllCxx.rowOf pf renderE oracleC)).flatten :=
  ⟨scanGo_file_plain pf renderE oracle template MASS_BINS ScanMll.headerLine [],
   scanGo_file_cxx pf renderE oracleC template ptemplate label
     ScanMllCxx.scanPairs ScanMllCxx.headerLine []⟩

theorem scanGo_trace_plain {α : Type} (pf : List Char → Option α)
    (renderE : α → List Char) (oracle : ℚ × ℚ → RunOutcome) (template : List Char) :
    ∀ (bs : List (ℚ × ℚ)) (file : List Char) (tr : List ScanAct),
      (∀ b ∈ bs, ScanMll.runOk pf oracle template b = true) →
      (ScanMll.scanGo pf renderE oracle template bs (file, tr)).2 =
        tr ++ bs.flatMap (fun b =>
          [ScanAct.updRunCard b, ScanAct.runGen (ScanMll.runName b),
           ScanAct.parseLog (ScanMll.runName b), ScanAct.appendRow]) := by
  intro bs
  induction bs with
  | nil => intro file tr _; simp [ScanMll.scanGo]
  | cons b rest ih =>
    intro file tr h
    have hb := h b (by simp)
    simp only [ScanMll.runOk, Bool.and_eq_true] at hb
    obtain ⟨⟨hA, hB⟩, hC⟩ := hb
    cases hupd : ScanMll.update_run_card (fmtG6 b.1) (fmtG6 b.2) template with
    | error e => rw [hupd] at hA; simp [exceptOk] at hA
    | ok t =>
      have hec : (oracle b).exitCode = 0 := by simpa using hB
      cases hpar : ScanMll.parse_cross_section pf (oracle b).logLines with
      | error e2 => rw [hpar] at hC; simp at hC
      | ok trip =>
        obtain ⟨x, e2, u⟩ := trip
        simp only [ScanMll.scanGo, hupd, hec, if_pos, hpar]
        rw [ih _ _ (fun b' hb' => h b' (by simp [hb']))]
        simp

theorem scanGo_trace_cxx {α : Type} (pf : List Char → Option α)
    (renderE : α → List Char) (oracleC : ℚ × ℚ → ℤ → RunOutcome)
    (template ptemplate label : List Char) :
    ∀ (ps : List ((ℚ × ℚ) × ℤ)) (file : List Char) (tr : List ScanAct),
      (∀ p ∈ ps, ScanMllCxx.runOk pf oracleC template ptemplate label p = true) →
      (ScanMllCxx.scanGo pf renderE oracleC template ptemplate label ps (file, tr)).2 =
        tr ++ ps.flatMap (fun p =>
          [ScanAct.updRunCard p.1, ScanAct.updParamCard p.2,
           ScanAct.runGen (ScanMllCxx.runName p.1 p.2),
           ScanAct.parseLog (ScanMllCxx.runName p.1 p.2), ScanAct.appendRow]) := by
  intro ps
  induction ps with
  | nil => intro file tr _; simp [ScanMllCxx.scanGo]
  | cons p rest ih =>
    obtain ⟨b, c⟩ := p
    intro file tr h
    have hb := h (b, c) (by simp)
    simp only [ScanMllCxx.runOk, Bool.and_eq_true] at hb
    obtain ⟨⟨⟨hA, hA2⟩, hB⟩, hC⟩ := hb
    cases hupd : ScanMllCxx.update_run_card (fmtG6 b.1) (fmtG6 b.2) template with
    | error e => rw [hupd] at hA; simp [exceptOk] at hA
    | ok t =>
      cases hupd2 : ScanMllCxx.update_param_card label (fmtE6 c) ptemplate with
      | error e => rw [hupd2] at hA2; simp [exceptOk] at hA2
      | ok t2 =>
        have hec : (oracleC b c).exitCode = 0 := by simpa using hB
        cases hpar : ScanMllCxx.parse_cross_section pf (oracleC b c).logLines with
        | error e2 => rw [hpar] at hC; simp at hC
        | ok trip =>
          obtain ⟨x, e2, u⟩ := trip
          simp only [ScanMllCxx.scanGo, hupd, hupd2, hec, if_pos, hpar]
          rw [ih _ _ (fun p' hp' => h p' (by simp [hp']))]
          simp

/-- C7: the cxx driver traverses the full Cartesian product
`MASS_BINS × CXX_VALUES` sequentially — mass bin as the outer loop, cxx
value as the inner loop — performing run-card update, param-card update,
generator run, log parse and row append in that order for every pair; the
plain driver traverses `MASS_BINS` in order with the same step order minus
the param-card update. -/
theorem C7_scan_order {α : Type} (pf : List Char → Option α)
    (renderE : α → List Char) (oracle : ℚ × ℚ → RunOutcome)
    (oracleC : ℚ × ℚ → ℤ → RunOutcome) (template ptemplate label : List Char)
    (hplain : ∀ b ∈ MASS_BINS, ScanMll.runOk pf oracle template b = true)
    (hcxx : ∀ p ∈ ScanMllCxx.scanPairs,
      ScanMllCxx.runOk pf oracleC template ptemplate label p = true) :
    ScanMllCxx.scanPairs =
      MASS_BINS.flatMap (fun b => CXX_VALUES.map fun c => (b, c)) ∧
    (ScanMllCxx.scanMain pf renderE oracleC template ptemplate label).2 =
      ScanMllCxx.scanPairs.flatMap (fun p =>
        [ScanAct.updRunCard p.1, ScanAct.updParamCard p.2,
         ScanAct.runGen (ScanMllCxx.runName p.1 p.2),
         ScanAct.parseLog (ScanMllCxx.runName p.1 p.2), ScanAct.appendRow]) ∧
    (ScanMll.scanMain pf renderE oracle template).2 =
      MASS_BINS.flatMap (fun b =>
        [ScanAct.updRunCard b, ScanAct.runGen (ScanMll.runName b),
         ScanAct.parseLog (ScanMll.runName b), ScanAct.appendRow]) := by
  refine ⟨rfl, ?_, ?_⟩
  · have := scanGo_trace_cxx pf renderE oracleC template ptemplate label
      ScanMllCxx.scanPairs ScanMllCxx.headerLine [] hcxx
    simpa [ScanMllCxx.scanMain] using this
  · have := scanGo_trace_plain pf renderE oracle template MASS_BINS
      ScanMll.headerLine [] hplain
    simpa [ScanMll.scanMain] using this

set_option maxRecDepth 16000 in
theorem C7_scan_order_witness :
    ScanMllCxx.scanPairs =
      MASS_BINS.flatMap (fun b => CXX_VALUES.map fun c => (b, c)) :=
  (C7_scan_order (fun s : List Char => some s) (fun s => s)
    (fun _ => ⟨0, [" Cross-section : 1 +- 2 pb".toList]⟩)
    (fun _ _ => ⟨0, [" Cross-section : 1 +- 2 pb".toList]⟩)
    "9 = mmll ! a\n9 = mmllmax ! b".toList
    "  1 2.0 # cG".toList "cG".toList
    (by decide) (by decide)).1

/-- C8 counterexample: the two scripts' `run_madgraph` functions are not
extensionally equal.  `scan_mll_bins.py` reassigns `GENERATE_EVENTS` to the
relative `Path("bin")/"generate_events"` (line 80), while the cxx script
keeps `BASE_DIR / "bin" / "generate_events"`, so the subprocess argv differs
at its first element for every base directory. -/
theorem C8_counterexample :
    ScanMll.run_madgraph_call "/repo".toList "x".toList ≠
      ScanMllCxx.run_madgraph_call "/repo".toList "x".toList := by
  decide

/-- C8 (amended): `parse_cross_section` and `update_run_card` are
extensionally equal between the two scripts, and their `run_madgraph`
functions agree on the run-name argument, the `-f` force flag, the log
path, the stderr-into-stdout redirection and the exit-status behaviour —
but they are not extensionally equal: the generator executable's argv entry
is the relative `bin/generate_events` in the plain script versus the
`BASE_DIR`-absolute path in the cxx script, for every base directory. -/
theorem C8_shared_functions {α : Type} (pf : List Char → Option α)
    (lines : List (List Char)) (fmtMin fmtMax text base rn : List Char)
    (ec : Nat) :
    ScanMll.parse_cross_section pf lines =
      ScanMllCxx.parse_cross_section pf lines ∧
    ScanMll.update_run_card fmtMin fmtMax text =
      ScanMllCxx.update_run_card fmtMin fmtMax text ∧
    ScanMll.logPath base rn = ScanMllCxx.logPath base rn ∧
    (ScanMll.run_madgraph_call base rn).outFile =
      (ScanMllCxx.run_madgraph_call base rn).outFile ∧
    (ScanMll.run_madgraph_call base rn).errToOut =
      (ScanMllCxx.run_madgraph_call base rn).errToOut ∧
    (ScanMll.run_madgraph_call base rn).argv.tail =
      (ScanMllCxx.run_madgraph_call base rn).argv.tail ∧
    ScanMll.run_madgraph_result ec base rn =
      ScanMllCxx.run_madgraph_result ec base rn ∧
    (ScanMll.run_madgraph_call base rn).argv.head? ≠
      (ScanMllCxx.run_madgraph_call base rn).argv.head? := by
  refine ⟨?_, rfl, rfl, rfl, rfl, rfl, rfl, ?_⟩
  · induction lines with
    | nil => rfl
    | cons l rest ih =>
      simp only [ScanMll.parse_cross_section, ScanMllCxx.parse_cross_section]
      rw [ih]
  · intro h
    simp only [ScanMll.run_madgraph_call, ScanMllCxx.run_madgraph_call,
      List.head?, Option.some.injEq] at h
    have hlen := congrArg List.length h
    rw [ScanMll.GENERATE_EVENTS, ScanMllCxx.GENERATE_EVENTS,
      List.length_append] at hlen
    have h1 : "bin/generate_events".toList.length = 19 := rfl
    have h2 : "/bin/generate_events".toList.length = 20 := rfl
    omega

theorem C8_shared_functions_witness :
    ScanMll.parse_cross_section (fun s : List Char => some s)
        [" Cross-section : 1 +- 2 pb".toList] =
      ScanMllCxx.parse_cross_section (fun s : List Char => some s)
        [" Cross-section : 1 +- 2 pb".toList] ∧
    ScanMll.run_madgraph_call "/repo".toList "x".toList ≠
      ScanMllCxx.run_madgraph_call "/repo".toList "x".toList := by
  have h := C8_shared_functions (fun s : List Char => some s)
    [" Cross-section : 1 +- 2 pb".toList] "1".toList "2".toList "t".toList
    "/repo".toList "x".toList 0
  refine ⟨h.1, ?_⟩
  intro hE
  exact h.2.2.2.2.2.2.2 (congrArg (fun pc : ProcCall => pc.argv.head?) hE)

set_option maxRecDepth 16000 in
/-- C9: run names are unique across the scan.  The 43 truncated-integer bin
names of the plain script are pairwise distinct, the 602 `(bin, cxx)` names
of the cxx script (with `.` mapped to `p` and `-` mapped to `m` in the cxx
tag) are pairwise distinct, and hence the per-run log paths are pairwise
distinct: no run overwrites the log of another. -/
theorem C9_run_names_unique :
    (MASS_BINS.map ScanMll.runName).Nodup ∧
    (MASS_BINS.flatMap fun b => CXX_VALUES.map fun c =>
      ScanMllCxx.runName b c).Nodup ∧
    (∀ base : List Char,
      ((MASS_BINS.flatMap fun b => CXX_VALUES.map fun c =>
        ScanMllCxx.runName b c).map (ScanMllCxx.logPath base)).Nodup) := by
  have hcxx : (MASS_BINS.flatMap fun b => CXX_VALUES.map fun c =>
      ScanMllCxx.runName b c).Nodup := by
    have hpk : (MASS_BINS.map (fun b => (pyInt b.1, pyInt b.2))).Nodup := by decide
    have htag : (CXX_VALUES.map ScanMllCxx.cxxTag).Nodup := by decide
    have hprod : ((MASS_BINS.map (fun b => (pyInt b.1, pyInt b.2))).product
        (CXX_VALUES.map ScanMllCxx.cxxTag)).Nodup := hpk.product htag
    have heq : ((MASS_BINS.map (fun b => (pyInt b.1, pyInt b.2))).product
        (CXX_VALUES.map ScanMllCxx.cxxTag)) =
        (MASS_BINS.flatMap fun b => CXX_VALUES.map fun c =>
          ScanMllCxx.runName b c).map
          (fun s => (((decodeRunNameCxx s).1, (decodeRunNameCxx s).2.1),
            (decodeRunNameCxx s).2.2)) := by decide
    rw [heq] at hprod
    exact List.Nodup.of_map _ hprod
  refine ⟨by decide, hcxx, ?_⟩
  intro base
  have hinj : Function.Injective (ScanMllCxx.logPath base) := by
    intro r1 r2 h
    simp only [ScanMllCxx.logPath] at h
    have h2 := List.append_cancel_right h
    have h3 := List.append_cancel_left h2
    injection h3
  exact hcxx.map hinj

/-- C10: invoked with fewer than two argv entries, the cxx script exits
with status 1 at import time (after printing the usage line); the only side
effect performed before the check is creating the logs directory — no card
file has been read or written, no subprocess spawned, and the output file
is untouched. -/
theorem C10_argv_check (argv : List (List Char)) (h : argv.length < 2) :
    ScanMllCxx.module_init argv = ([InitEffect.mkdirLogs], .error 1) ∧
    InitEffect.readCardFile ∉ (ScanMllCxx.module_init argv).1 ∧
    InitEffect.writeCardFile ∉ (ScanMllCxx.module_init argv).1 ∧
    InitEffect.spawnSubprocess ∉ (ScanMllCxx.module_init argv).1 ∧
    InitEffect.writeOutputFile ∉ (ScanMllCxx.module_init argv).1 := by
  refine ⟨?_, ?_, ?_, ?_, ?_⟩ <;> simp [ScanMllCxx.module_init, h]

theorem C10_argv_check_witness :
    ScanMllCxx.module_init [['s']] = ([InitEffect.mkdirLogs], .error 1) :=
  (C10_argv_check [['s']] (by decide)).1
